import Mathlib

/-!
Verification of the closed-loop orchestrator of YA_MCPServer_Template.

The repository drives a DeepSeek chat-completion loop against MCP tools in
two near-identical implementations: a command-line client
(`deepseek_mcp_cli.py`, function `run_closed_loop`) and a streaming SSE
bridge (`bridge_server.py`, generator `_chat_sse`).  This file gives a
shallow embedding of both loops and proves (or refutes) the specified
properties about them.

Modelling conventions:
* Python dict/list/str/int/bool/None values exchanged on the wire are
  modelled by the inductive type `J`.
* Python strings are Lean `String`s; where character-level reasoning is
  needed (`_redact`) the Python string is its list of characters.
* `json.loads` is an external library function; the embedding is
  parametric in a partial parse function `jl : String → Option J`
  (`none` models a raised exception).  `json.dumps(· , ensure_ascii=False)`
  is modelled concretely by `dumps` (Python's default separators
  `", "` and `": "`; string escaping is the identity on the quote-free
  strings that occur in this development).
* The DeepSeek endpoint is an oracle `ores : Nat → Except String J`
  giving, for each step index, either the decoded response JSON or the
  message of the exception raised by `chat_completions` (non-2xx status
  or transport failure).  The loops issue exactly one request per step,
  so indexing by step is faithful.
* Tool executors (produced by `OpenAIMCPAdapter`, outside this tree) are
  arbitrary callables `J → Except String J`; `Except.error e` models the
  executor raising an exception with text `e`.
* `request.is_disconnected()` is an oracle `dis : Nat → Bool` sampled at
  the top of each step, exactly where the generator polls it.
* The float temperature constant (0.2) is omitted from the request body
  model; no examined property mentions it.
-/

/-- JSON-like values: the Python data (dicts, lists, strings, ints, bools,
None) that the two closed loops manipulate. -/
inductive J where
  | null
  | boolv (b : Bool)
  | num (n : Int)
  | str (s : String)
  | arr (elems : List J)
  | obj (fields : List (String × J))

/-- Python truthiness `bool(x)` of a JSON-like value. -/
def truthy : J → Bool
  | .null => false
  | .boolv b => b
  | .num n => n != 0
  | .str s => !s.isEmpty
  | .arr xs => !xs.isEmpty
  | .obj fs => !fs.isEmpty

/-- First value bound to key `k` in an association list (Python dict keys
are unique, so first-match lookup is faithful). -/
def lookupField : List (String × J) → String → Option J
  | [], _ => none
  | (k', v) :: rest, k => if k' = k then some v else lookupField rest k

/-- Python `d.get(k)`: `none` models the value `None` returned for a
missing key.  The sources only call `.get` on dict values. -/
def J.get : J → String → Option J
  | .obj fs, k => lookupField fs k
  | _, _ => none

/-- Python `d.get(k) or default`: the looked-up value when it is truthy,
otherwise the default. -/
def pyOr (v : Option J) (d : J) : J :=
  match v with
  | some x => if truthy x then x else d
  | none => d

/-- A Python value that may be `None`, as a JSON value (used when such a
value is embedded in an event payload or message). -/
def jOfOpt (v : Option J) : J := v.getD J.null

/-- Python `isinstance(x, dict)`. -/
def isDict : J → Bool
  | .obj _ => true
  | _ => false

/-- Decimal digit as a character, `digitChar d = '0' + d` for `d < 10`. -/
def digitChar (d : Nat) : Char := Char.ofNat (48 + d)

/-- Decimal digits of `n`, least significant first, with explicit fuel so
that the definition is structural (hence computable by `rfl`). -/
def natDigitsRevF : Nat → Nat → List Nat
  | 0, _ => []
  | f + 1, n => if n < 10 then [n] else n % 10 :: natDigitsRevF f (n / 10)

/-- Decimal digits of `n`, least significant first. -/
def natDigitsRev (n : Nat) : List Nat := natDigitsRevF (n + 1) n

/-- Python `str(n)` for a nonnegative integer: its decimal notation. -/
def natRepr (n : Nat) : String := String.mk ((natDigitsRev n).reverse.map digitChar)

/-- Value of a little-endian digit list; inverse of `natDigitsRev`. -/
def digitsVal : List Nat → Nat
  | [] => 0
  | d :: ds => d + 10 * digitsVal ds

/-- JSON string literal as written by `json.dumps`; escaping is the
identity on the quote-free, backslash-free strings of this development. -/
def dumpStr (s : String) : String := "\"" ++ s ++ "\""

mutual

/-- Model of Python `json.dumps(x, ensure_ascii=False)` with the default
separators `", "` and `": "`. -/
def dumps : J → String
  | .null => "null"
  | .boolv true => "true"
  | .boolv false => "false"
  | .num n => toString n
  | .str s => dumpStr s
  | .arr xs => "[" ++ dumpsArr xs ++ "]"
  | .obj fs => "\x7b" ++ dumpsObj fs ++ "\x7d"

/-- Array elements of `dumps`, comma-separated. -/
def dumpsArr : List J → String
  | [] => ""
  | [x] => dumps x
  | x :: y :: rest => dumps x ++ ", " ++ dumpsArr (y :: rest)

/-- Object fields of `dumps`, comma-separated `"key": value` pairs. -/
def dumpsObj : List (String × J) → String
  | [] => ""
  | [(k, v)] => dumpStr k ++ ": " ++ dumps v
  | (k, v) :: y :: rest => dumpStr k ++ ": " ++ dumps v ++ ", " ++ dumpsObj (y :: rest)

end

/-- Python `s.strip()`: drop leading and trailing whitespace. -/
def pyStrip (s : String) : String :=
  String.mk (((s.data.dropWhile Char.isWhitespace).reverse.dropWhile Char.isWhitespace).reverse)

/-- Python `s.rstrip('/')` as used on the configured base URL. -/
def rstripSlashes (s : String) : String :=
  String.mk ((s.data.reverse.dropWhile (fun c => c = '/')).reverse)

/-- Lexicographic comparison of character lists by code point, the
order Python uses to compare strings. -/
def charListLe : List Char → List Char → Bool
  | [], _ => true
  | _ :: _, [] => false
  | a :: as, b :: bs =>
    if a.toNat < b.toNat then true
    else if b.toNat < a.toNat then false
    else charListLe as bs

/-- Python string comparison `a <= b`. -/
def pyStrLe (a b : String) : Bool := charListLe a.data b.data

/-- Insert a string into a sorted list of strings. -/
def insertSortedStr (x : String) : List String → List String
  | [] => [x]
  | y :: ys => if pyStrLe x y then x :: y :: ys else y :: insertSortedStr x ys

/-- Python `sorted` on a list of strings (an insertion sort under the
code-point order). -/
def sortedStrings : List String → List String
  | [] => []
  | x :: xs => insertSortedStr x (sortedStrings xs)

/-- Does the first list start the second? -/
def listStarts : List Char → List Char → Bool
  | [], _ => true
  | _ :: _, [] => false
  | a :: as, b :: bs => a = b && listStarts as bs

/-- Substring test used to analyse serialized payloads: does `sub` occur
contiguously inside `hay`? -/
def listHasSub (sub hay : List Char) : Bool :=
  match hay with
  | [] => sub.isEmpty
  | _ :: rest => listStarts sub hay || listHasSub sub rest

/-- Substring test on strings. -/
def strHasSub (hay sub : String) : Bool := listHasSub sub.data hay.data

/-- Python slice `s[-k:]` on a character list: for `k = 0` it is the
whole string (`s[-0:]` is `s[0:]`), for `k ≥ 1` the last `min k (len s)`
characters (truncated subtraction also gives the whole string when
`k > len s`, as Python does). -/
def pySliceLast (s : List Char) (k : Nat) : List Char :=
  if k = 0 then s else s.drop (s.length - k)

/-- CLI `_redact` (deepseek_mcp_cli.py lines 45-50), on the character list
of the Python string: the empty string for the empty string, full masking
for strings no longer than `keep_last`, otherwise asterisks followed by
the slice `s[-keep_last:]` — which at `keep_last = 0` is the whole
string, not the empty suffix. -/
def _redact (s : List Char) (keep_last : Nat) : List Char :=
  if s = [] then []
  else if s.length ≤ keep_last then List.replicate s.length '*'
  else List.replicate (s.length - keep_last) '*' ++ pySliceLast s keep_last

/-- Shared helper `_extract_message` (both sources): first choice's
`message`, or the empty dict when absent.  A truthy non-list `choices`
value would make the Python index raise; the wire format makes `choices`
a list, and the embedding returns the empty dict in that unreachable
case. -/
def _extract_message (resp_json : J) : J :=
  match pyOr (resp_json.get "choices") (J.arr []) with
  | .arr (c :: _) => pyOr (c.get "message") (J.obj [])
  | _ => J.obj []

/-- Shared helper `_extract_tool_calls` (both sources): the modern
`tool_calls` list when it is a nonempty list, else a legacy
`function_call` dict with a truthy name synthesized into a one-element
list with id `legacy_function_call`, else the empty list. -/
def _extract_tool_calls (msg : J) : List J :=
  match msg.get "tool_calls" with
  | some (.arr (c :: cs)) => c :: cs
  | _ =>
    match msg.get "function_call" with
    | some fc =>
      match fc with
      | .obj _ =>
        if truthy (jOfOpt (fc.get "name")) then
          [J.obj [("id", J.str "legacy_function_call"), ("type", J.str "function"),
            ("function", J.obj [("name", jOfOpt (fc.get "name")),
              ("arguments", pyOr (fc.get "arguments") (J.str "\x7b\x7d"))])]]
        else []
      | _ => []
    | none => []

/-- Shared helper `_safe_json_loads` (both sources), parametric in the
`json.loads` behaviour `jl`: falsy input gives the empty dict; a string
that parses gives the parsed value; any parse failure (including a
non-string argument, whose `json.loads` raises `TypeError`) yields the
raw value under the designated key `"_raw"`. -/
def _safe_json_loads (jl : String → Option J) (s : J) : J :=
  if truthy s = false then J.obj []
  else
    match s with
    | .str t =>
      match jl t with
      | some v => v
      | none => J.obj [("_raw", s)]
    | _ => J.obj [("_raw", s)]

/-- A tool executor as handed out by `OpenAIMCPAdapter.tool_executors`:
an async callable from the parsed argument object to a structured result;
`Except.error e` models the executor raising an exception with text `e`. -/
abbrev Executor : Type := J → Except String J

/-- The adapter's `tool_executors` mapping, as an association list with
unique keys in insertion order. -/
abbrev Registry : Type := List (String × Executor)

/-- Python `adapter.tool_executors.get(name)` on a string key. -/
def lookupReg : Registry → String → Option Executor
  | [], _ => none
  | (k, e) :: rest, n => if k = n then some e else lookupReg rest n

/-- Executor resolution: `fn.get("name")` may be missing or a non-string
value, in which case no string key of the registry can match. -/
def lookupExec (regs : Registry) : Option J → Option Executor
  | some (.str n) => lookupReg regs n
  | _ => none

/-- Python `str(name)` as interpolated into the not-found error text
(`name` is the raw value of `fn.get("name")`). -/
def pyStrOfName : Option J → String
  | none => "None"
  | some (.str s) => s
  | some v => dumps v

/-- The synthesized tool result for an unresolved tool name (both
sources): an error text plus the sorted list of known tool names. -/
def notFoundResult (regs : Registry) (name : Option J) : J :=
  J.obj [("error", J.str ("tool executor not found for: " ++ pyStrOfName name)),
    ("available", J.arr ((sortedStrings (regs.map Prod.fst)).map J.str))]

/-- The tool-role message appended for one tool call (both sources):
role `tool`, the originating call id, and the JSON-serialized result. -/
def toolMessage (call_id : J) (tool_result : J) : J :=
  J.obj [("role", J.str "tool"), ("tool_call_id", call_id),
    ("content", J.str (dumps tool_result))]

/-- The fixed system prompt both loops seed the transcript with. -/
def systemText : String :=
  "你是一个金融助手。你可以通过可用工具获取实时数据、新闻、风险评分、异常检测、预测等。当需要外部数据时，优先调用工具；拿到工具结果后再给出结论。输出请用中文，结构清晰。"

/-- Initial transcript: the system message followed by the user query. -/
def initMessages (query : String) : List J :=
  [J.obj [("role", J.str "system"), ("content", J.str systemText)],
    J.obj [("role", J.str "user"), ("content", J.str query)]]

/-- The final text extracted on the no-tool-calls exit:
`(msg.get("content") or "").strip()`. -/
def contentText (msg : J) : String :=
  match pyOr (msg.get "content") (J.str "") with
  | .str s => pyStrip s
  | _ => ""

/-- Outcome of one CLI dispatch pass over a step's tool calls
(deepseek_mcp_cli.py lines 253-284): the tool messages appended (in call
order), the executor invocations actually performed (name and argument
object, in order), and the exception text if an executor raised — in
which case dispatch stops, keeping the messages appended so far. -/
structure CliDispatch where
  msgs : List J
  invs : List (String × J)
  raised : Option String

/-- CLI per-call dispatch (deepseek_mcp_cli.py lines 253-284), `idx`
being the 1-based `enumerate` position within the step: resolve the
function name; an unresolved name synthesizes `notFoundResult`; a
resolved executor is invoked with the parsed arguments if they form a
dict, else with the empty dict; a raising executor aborts the pass;
otherwise the serialized result is appended as a tool message under the
call id (generated as `call_{step}_{idx}` when absent). -/
def cliDispatch (regs : Registry) (jl : String → Option J) (step : Nat) :
    Nat → List J → CliDispatch
  | _, [] => ⟨[], [], none⟩
  | idx, call :: rest =>
    let fn := pyOr (call.get "function") (J.obj [])
    let name := fn.get "name"
    let args_str := pyOr (fn.get "arguments") (J.str "\x7b\x7d")
    let args := _safe_json_loads jl args_str
    let call_id := pyOr (call.get "id") (J.str ("call_" ++ natRepr step ++ "_" ++ natRepr idx))
    match lookupExec regs name with
    | none =>
      let out := cliDispatch regs jl step (idx + 1) rest
      ⟨toolMessage call_id (notFoundResult regs name) :: out.msgs, out.invs, out.raised⟩
    | some ex =>
      let arg := if isDict args then args else J.obj []
      let nm := match name with | some (.str n) => n | _ => ""
      match ex arg with
      | .error e => ⟨[], [(nm, arg)], some e⟩
      | .ok v =>
        let out := cliDispatch regs jl step (idx + 1) rest
        ⟨toolMessage call_id v :: out.msgs, (nm, arg) :: out.invs, out.raised⟩

/-- Result of a CLI run: the returned final text or the text of the
raised exception, the number of chat-completion requests issued, the
transcript at exit, and the executor invocations performed. -/
structure CliResult where
  outcome : Except String String
  nReq : Nat
  msgs : List J
  invs : List (String × J)

/-- The budget-exhausted exception text of the CLI
(deepseek_mcp_cli.py line 286). -/
def cliBudgetMsg (max_steps : Nat) : String :=
  "达到 max_steps=" ++ natRepr max_steps ++ " 仍未结束。可能是工具输出不足或模型循环调用。"

/-- The empty-response exception text of the CLI
(deepseek_mcp_cli.py line 238). -/
def cliEmptyMsg : String := "DeepSeek 返回空 message，无法继续"

/-- The CLI step loop (deepseek_mcp_cli.py lines 215-286).  `fuel` is the
number of steps still allowed (initially `max_steps`), `step` the
1-based index of the current step.  Each iteration issues one request;
an empty extracted message raises; no tool calls returns the final text;
otherwise the assistant message and the dispatched tool messages are
appended and the loop continues.  Exhausting the range raises the
budget error. -/
def cliLoop (regs : Registry) (jl : String → Option J) (ores : Nat → Except String J)
    (max_steps : Nat) : Nat → Nat → List J → CliResult
  | _, 0, messages => ⟨.error (cliBudgetMsg max_steps), 0, messages, []⟩
  | step, fuel + 1, messages =>
    match ores step with
    | .error e => ⟨.error e, 1, messages, []⟩
    | .ok resp =>
      let msg := _extract_message resp
      if truthy msg = false then ⟨.error cliEmptyMsg, 1, messages, []⟩
      else
        match _extract_tool_calls msg with
        | [] => ⟨.ok (contentText msg), 1, messages, []⟩
        | c :: cs =>
          let d := cliDispatch regs jl step 1 (c :: cs)
          let messages' := (messages ++ [msg]) ++ d.msgs
          match d.raised with
          | some e => ⟨.error e, 1, messages', d.invs⟩
          | none =>
            let r := cliLoop regs jl ores max_steps (step + 1) fuel messages'
            ⟨r.outcome, 1 + r.nReq, r.msgs, d.invs ++ r.invs⟩

/-- CLI `run_closed_loop` (deepseek_mcp_cli.py lines 170-288): seed the
transcript with the system prompt and the query, then run the step loop
for at most `max_steps` steps starting at step 1. -/
def run_closed_loop (regs : Registry) (jl : String → Option J)
    (ores : Nat → Except String J) (max_steps : Nat) (query : String) : CliResult :=
  cliLoop regs jl ores max_steps 1 max_steps (initMessages query)

/-- SSE events emitted by the bridge (`_sse` payloads, discriminated by
their `type` field). -/
inductive Event where
  | metaEv (mcp_server_url deepseek_base_url deepseek_model : String) (max_steps : Nat)
  | statusEv (message : String)
  | toolsEv (count : Nat) (tools : J)
  | requestEv (step : Nat) (preview : J)
  | responseEv (step : Nat) (message : J)
  | toolCallEv (name : J) (arguments : J) (raw_arguments : J)
  | toolResultEv (name : J) (result : J)
  | finalEv (content : String)
  | errorEv (message : String)

/-- An outgoing `POST {base_url}/chat/completions` request: its URL, the
value of its `Authorization` header, and its JSON body. -/
structure HttpReq where
  url : String
  authorization : String
  body : J

/-- Inputs of one `_chat_sse` run: the raw `query` parameter (missing is
the empty string), the MCP server URL, the step budget, the verbose
flag, the configured credential (`none` when unset), endpoint and model,
the discovered tool schema, and the adapter's executor registry. -/
structure BridgeCfg where
  query : String
  server_url : String
  max_steps : Nat
  verbose : Bool
  api_key : Option String
  base_url : String
  model : String
  tools : List J
  regs : Registry

/-- Result of a bridge run: the emitted SSE events in order, the
outgoing LLM requests in order, the transcript at exit, and the executor
invocations performed. -/
structure BridgeResult where
  events : List Event
  reqs : List HttpReq
  msgs : List J
  invs : List (String × J)

/-- The verbose request preview of the bridge (bridge_server.py lines
229-234). -/
def reqPreviewFull (model : String) (messages : List J) (toolsCount : Nat) : J :=
  J.obj [("model", J.str model), ("messages", J.arr messages),
    ("tools_count", J.num (toolsCount : Int)), ("tool_choice", J.str "auto")]

/-- The non-verbose request preview of the bridge (bridge_server.py line
235). -/
def reqPreviewShort (model : String) (toolsCount : Nat) : J :=
  J.obj [("model", J.str model), ("tools_count", J.num (toolsCount : Int))]

/-- The preview actually emitted in a `deepseek_request` event. -/
def reqPreview (cfg : BridgeCfg) (messages : List J) : J :=
  if cfg.verbose then reqPreviewFull cfg.model messages cfg.tools.length
  else reqPreviewShort cfg.model cfg.tools.length

/-- The non-verbose `deepseek_response` payload (bridge_server.py line
244): role, content and the extracted tool-call list. -/
def respPayloadShort (msg : J) (tcs : List J) : J :=
  J.obj [("role", jOfOpt (msg.get "role")), ("content", jOfOpt (msg.get "content")),
    ("tool_calls", J.arr tcs)]

/-- The `deepseek_response` payload actually emitted. -/
def respPayload (cfg : BridgeCfg) (msg : J) (tcs : List J) : J :=
  if cfg.verbose then msg else respPayloadShort msg tcs

/-- The chat-completions URL built by `DeepSeekOpenAICompat`
(bridge_server.py line 97). -/
def chatUrl (base_url : String) : String :=
  rstripSlashes base_url ++ "/chat/completions"

/-- The outgoing request of one step (bridge_server.py lines 97-112):
the credential goes into the `Authorization` header and nowhere else;
the body carries model, transcript, tool schema and tool choice. -/
def mkReq (cfg : BridgeCfg) (key : String) (messages : List J) : HttpReq :=
  ⟨chatUrl cfg.base_url, "Bearer " ++ key,
    J.obj [("model", J.str cfg.model), ("messages", J.arr messages),
      ("tools", J.arr cfg.tools), ("tool_choice", J.str "auto")]⟩

/-- Outcome of one bridge dispatch pass over a step's tool calls
(bridge_server.py lines 253-279): the `tool_call`/`tool_result` events
emitted, the tool messages appended, the executor invocations, and the
exception text if an executor raised (the `tool_call` event of the
failing call has then been emitted, but no `tool_result` and no
message). -/
structure BridgeDispatch where
  events : List Event
  msgs : List J
  invs : List (String × J)
  raised : Option String

/-- Bridge per-call dispatch (bridge_server.py lines 253-279).  It
differs from the CLI pass in two ways: a `tool_call` event precedes and
a `tool_result` event follows each execution, and a generated call id is
`call_{step}` with no per-call component. -/
def bridgeDispatch (regs : Registry) (jl : String → Option J) (step : Nat) :
    List J → BridgeDispatch
  | [] => ⟨[], [], [], none⟩
  | call :: rest =>
    let fn := pyOr (call.get "function") (J.obj [])
    let name := fn.get "name"
    let args_str := pyOr (fn.get "arguments") (J.str "\x7b\x7d")
    let args := _safe_json_loads jl args_str
    let call_id := pyOr (call.get "id") (J.str ("call_" ++ natRepr step))
    let callEv := Event.toolCallEv (jOfOpt name) args args_str
    match lookupExec regs name with
    | none =>
      let tr := notFoundResult regs name
      let out := bridgeDispatch regs jl step rest
      ⟨callEv :: Event.toolResultEv (jOfOpt name) tr :: out.events,
        toolMessage call_id tr :: out.msgs, out.invs, out.raised⟩
    | some ex =>
      let arg := if isDict args then args else J.obj []
      let nm := match name with | some (.str n) => n | _ => ""
      match ex arg with
      | .error e => ⟨[callEv], [], [(nm, arg)], some e⟩
      | .ok v =>
        let out := bridgeDispatch regs jl step rest
        ⟨callEv :: Event.toolResultEv (jOfOpt name) v :: out.events,
          toolMessage call_id v :: out.msgs, (nm, arg) :: out.invs, out.raised⟩

/-- The budget-exhausted error event text of the bridge
(bridge_server.py line 281). -/
def bridgeBudgetMsg (max_steps : Nat) : String :=
  "达到 max_steps=" ++ natRepr max_steps ++ " 仍未结束（可能进入循环调用）"

/-- The empty-response error event text of the bridge
(bridge_server.py line 240). -/
def bridgeEmptyMsg : String := "DeepSeek 返回空 message"

/-- The bridge step loop (bridge_server.py lines 225-281).  At the top
of each step the cancellation signal is polled: once observed the
generator returns with no further events.  Otherwise a `deepseek_request`
event is emitted and the request issued; an exception raised by the
gateway propagates to the outer handler, which emits a single `error`
event.  An empty extracted message emits an `error` event; a response
without tool calls emits the `deepseek_response` event and then the
single `final` event; otherwise the assistant message is appended, the
calls dispatched (a raising executor again reaching the outer handler),
and the loop continues.  An exhausted range emits the budget `error`
event. -/
def bridgeLoop (cfg : BridgeCfg) (ores : Nat → Except String J) (dis : Nat → Bool)
    (jl : String → Option J) (key : String) : Nat → Nat → List J → BridgeResult
  | _, 0, messages => ⟨[.errorEv (bridgeBudgetMsg cfg.max_steps)], [], messages, []⟩
  | step, fuel + 1, messages =>
    if dis step then ⟨[], [], messages, []⟩
    else
      let reqEv := Event.requestEv step (reqPreview cfg messages)
      let hreq := mkReq cfg key messages
      match ores step with
      | .error e => ⟨[reqEv, .errorEv e], [hreq], messages, []⟩
      | .ok resp =>
        let msg := _extract_message resp
        if truthy msg = false then ⟨[reqEv, .errorEv bridgeEmptyMsg], [hreq], messages, []⟩
        else
          match _extract_tool_calls msg with
          | [] =>
            ⟨[reqEv, .responseEv step (respPayload cfg msg []), .finalEv (contentText msg)],
              [hreq], messages, []⟩
          | c :: cs =>
            let respEv := Event.responseEv step (respPayload cfg msg (c :: cs))
            let d := bridgeDispatch cfg.regs jl step (c :: cs)
            let messages' := (messages ++ [msg]) ++ d.msgs
            match d.raised with
            | some e =>
              ⟨reqEv :: respEv :: (d.events ++ [.errorEv e]), [hreq], messages', d.invs⟩
            | none =>
              let r := bridgeLoop cfg ores dis jl key (step + 1) fuel messages'
              ⟨reqEv :: respEv :: (d.events ++ r.events), hreq :: r.reqs, r.msgs,
                d.invs ++ r.invs⟩

/-- Error event text for a missing `query` parameter
(bridge_server.py line 167). -/
def missingQueryMsg : String := "缺少 query 参数"

/-- Error event text for a missing credential (bridge_server.py line
177). -/
def missingKeyMsg : String := "缺少 DEEPSEEK_API_KEY（请设置环境变量或 env.yaml）"

/-- Error event text when tool discovery produces no tools
(bridge_server.py lines 205-210). -/
def noToolsMsg : String :=
  "未获取到任何 MCP tools：请确认 MCP Server（SSE）已启动，且 server_url 指向正确地址。"

/-- Status event text emitted before tool discovery
(bridge_server.py line 200). -/
def statusText : String := "连接 MCP Server 并拉取 tools..."

/-- Bridge `_chat_sse` (bridge_server.py lines 163-286): validate the
query parameter and the credential (each failure emits a single `error`
event), emit the `meta`, `status` and `tools` events, reject an empty
tool schema, then run the step loop on the seeded transcript. -/
def _chat_sse (cfg : BridgeCfg) (ores : Nat → Except String J) (dis : Nat → Bool)
    (jl : String → Option J) : BridgeResult :=
  let query := pyStrip cfg.query
  if query = "" then ⟨[.errorEv missingQueryMsg], [], [], []⟩
  else
    match cfg.api_key with
    | none => ⟨[.errorEv missingKeyMsg], [], [], []⟩
    | some key =>
      if key = "" then ⟨[.errorEv missingKeyMsg], [], [], []⟩
      else
        let metaE := Event.metaEv cfg.server_url cfg.base_url cfg.model cfg.max_steps
        let statusE := Event.statusEv statusText
        let toolsE := Event.toolsEv cfg.tools.length (if cfg.verbose then J.arr cfg.tools else J.null)
        if cfg.tools.isEmpty then
          ⟨[metaE, statusE, toolsE, .errorEv noToolsMsg], [], [], []⟩
        else
          let r := bridgeLoop cfg ores dis jl key 1 cfg.max_steps (initMessages query)
          ⟨metaE :: statusE :: toolsE :: r.events, r.reqs, r.msgs, r.invs⟩

/-- Terminal events of a run: `final` and `error` (no `cancelled` event
kind exists in the source). -/
def isTerminal : Event → Bool
  | .finalEv _ => true
  | .errorEv _ => true
  | _ => false

/-- Success events of a run. -/
def isFinal : Event → Bool
  | .finalEv _ => true
  | _ => false

/-- Tool-result events of a run. -/
def isToolResult : Event → Bool
  | .toolResultEv _ _ => true
  | _ => false

/-- Generated CLI call id for an id-less call: `f"call_{step}_{idx}"`
(deepseek_mcp_cli.py line 258). -/
def cliGenId (step idx : Nat) : String :=
  "call_" ++ natRepr step ++ "_" ++ natRepr idx

/-- Generated bridge call id for an id-less call: `f"call_{step}"`
(bridge_server.py line 258). -/
def bridgeGenId (step : Nat) : String := "call_" ++ natRepr step

/-- A registry all of whose executors return normally on every argument
(no executor raises). -/
def ExecsTotal (regs : Registry) : Prop :=
  ∀ n ex, (n, ex) ∈ regs → ∀ a, ∃ v, ex a = Except.ok v

/-- At step `k` the oracle answers with a response whose extracted
message is truthy and carries at least one tool call. -/
def OkWithCalls (ores : Nat → Except String J) (k : Nat) : Prop :=
  ∃ resp, ores k = Except.ok resp ∧ truthy (_extract_message resp) = true ∧
    _extract_tool_calls (_extract_message resp) ≠ []

/-- A `json.loads` stub adequate for the concrete runs below: it parses
the empty object, one singleton object, and rejects everything else
(in particular every malformed string such as a lone opening brace). -/
def jlFix : String → Option J := fun s =>
  if s = "\x7b\x7d" then some (J.obj [])
  else if s = "\x7b\"x\": 1\x7d" then some (J.obj [("x", J.num 1)])
  else if s = "[1, 2]" then some (J.arr [J.num 1, J.num 2])
  else none

/-- An executor that succeeds, echoing its argument. -/
def exEcho : Executor := fun a => Except.ok (J.obj [("echo", a)])

/-- An executor that succeeds with a constant payload. -/
def exConst : Executor := fun _ => Except.ok (J.obj [("ok", J.num 1)])

/-- An executor that raises. -/
def exBoom : Executor := fun _ => Except.error "boom failed"

/-- A registry of non-raising executors. -/
def regsTotal : Registry := [("echo", exEcho), ("ok", exConst)]

/-- A registry holding a raising executor. -/
def regsBoom : Registry := [("boom", exBoom)]

/-- Wire-shaped tool-call object for the fixtures. -/
def mkCallJ (id : Option String) (name : String) (args : String) : J :=
  J.obj ((match id with
    | some i => [("id", J.str i)]
    | none => ([] : List (String × J))) ++
    [("type", J.str "function"),
     ("function", J.obj [("name", J.str name), ("arguments", J.str args)])])

/-- Wire-shaped chat-completion response carrying a plain assistant
text. -/
def respMsgFinal (text : String) : J :=
  J.obj [("choices", J.arr [J.obj [("message",
    J.obj [("role", J.str "assistant"), ("content", J.str text)])]])]

/-- Wire-shaped chat-completion response carrying tool calls. -/
def respMsgCalls (calls : List J) : J :=
  J.obj [("choices", J.arr [J.obj [("message",
    J.obj [("role", J.str "assistant"), ("content", J.null),
      ("tool_calls", J.arr calls)])]])]

/-- Bridge configuration for the fixtures. -/
def mkCfg (ms : Nat) (regs : Registry) : BridgeCfg :=
  ⟨"q", "http://127.0.0.1:19420/", ms, false, some "K",
    "https://api.deepseek.com/v1", "deepseek-chat", [J.str "schema"], regs⟩

/-- Fixture oracle: a final answer at step 1. -/
def oresFinal1 : Nat → Except String J := fun k =>
  if k = 1 then Except.ok (respMsgFinal " done ") else Except.error "no more responses"

/-- Fixture oracle: a tool-call response at every step up to 2. -/
def oresCalls2 : Nat → Except String J := fun k =>
  if k ≤ 2 then Except.ok (respMsgCalls [mkCallJ (some "c1") "echo" "\x7b\x7d"])
  else Except.error "no more responses"

/-- The `function` dict of a wire tool call (`call.get("function") or
\x7b\x7d`). -/
def callFn (call : J) : J := pyOr (call.get "function") (J.obj [])

/-- The raw name value of a wire tool call. -/
def callName (call : J) : Option J := (callFn call).get "name"

/-- The raw argument string of a wire tool call
(`fn.get("arguments") or "\x7b\x7d"`). -/
def callArgsStr (call : J) : J := pyOr ((callFn call).get "arguments") (J.str "\x7b\x7d")

/-- The best-effort parsed arguments of a wire tool call. -/
def callArgs (jl : String → Option J) (call : J) : J := _safe_json_loads jl (callArgsStr call)

/-- The argument object actually passed to a resolved executor. -/
def callDictArg (jl : String → Option J) (call : J) : J :=
  if isDict (callArgs jl call) then callArgs jl call else J.obj []

/-- Fixture oracle: a single call to the raising tool at step 1. -/
def oresBoom1 : Nat → Except String J := fun k =>
  if k = 1 then Except.ok (respMsgCalls [mkCallJ (some "c1") "boom" "\x7b\x7d"])
  else Except.error "no more responses"

/-- Fixture oracle: a call to an unregistered tool at step 1, then a
final answer. -/
def oresUnknown : Nat → Except String J := fun k =>
  if k = 1 then Except.ok (respMsgCalls [mkCallJ (some "c1") "nonexistent_tool" "\x7b\x7d"])
  else if k = 2 then Except.ok (respMsgFinal "done")
  else Except.error "no more responses"

/-- Fixture oracle: one call with malformed argument JSON at step 1,
then a final answer. -/
def oresBadArgs : Nat → Except String J := fun k =>
  if k = 1 then Except.ok (respMsgCalls [mkCallJ (some "c1") "ok" "\x7bnot json"])
  else if k = 2 then Except.ok (respMsgFinal "done")
  else Except.error "no more responses"

/-- Fixture oracle: two id-less tool calls in step 1, then a final
answer. -/
def oresTwoNoId : Nat → Except String J := fun k =>
  if k = 1 then Except.ok (respMsgCalls
    [mkCallJ none "ok" "\x7b\x7d", mkCallJ none "echo" "\x7b\x7d"])
  else if k = 2 then Except.ok (respMsgFinal "done")
  else Except.error "no more responses"

/-- Fixture cancellation signal: observed at the step-2 boundary. -/
def disAt2 : Nat → Bool := fun k => k == 2

theorem digitsVal_natDigitsRevF (f : Nat) : ∀ n, n < f → digitsVal (natDigitsRevF f n) = n := by
  induction f with
  | zero => intro n h; omega
  | succ f ih =>
    intro n h
    by_cases h10 : n < 10
    · simp [natDigitsRevF, h10, digitsVal]
    · have hdiv : n / 10 < f := by
        have h1 : n / 10 < n := Nat.div_lt_self (by omega) (by omega)
        omega
      simp only [natDigitsRevF, if_neg h10, digitsVal, ih _ hdiv]
      omega

theorem digitsVal_natDigitsRev (n : Nat) : digitsVal (natDigitsRev n) = n :=
  digitsVal_natDigitsRevF (n + 1) n (Nat.lt_succ_self n)

theorem natDigitsRev_inj {a b : Nat} (h : natDigitsRev a = natDigitsRev b) : a = b := by
  have ha := digitsVal_natDigitsRev a
  have hb := digitsVal_natDigitsRev b
  rw [h] at ha
  omega

theorem natDigitsRevF_lt_ten (f : Nat) : ∀ n d, d ∈ natDigitsRevF f n → d < 10 := by
  induction f with
  | zero => intro n d h; simp [natDigitsRevF] at h
  | succ f ih =>
    intro n d h
    by_cases h10 : n < 10
    · simp [natDigitsRevF, h10] at h; omega
    · simp only [natDigitsRevF, if_neg h10, List.mem_cons] at h
      rcases h with h | h
      · omega
      · exact ih _ _ h

theorem natDigitsRev_lt_ten {n d : Nat} (h : d ∈ natDigitsRev n) : d < 10 :=
  natDigitsRevF_lt_ten (n + 1) n d h

theorem digitChar_toNat {d : Nat} (h : d < 10) : (digitChar d).toNat = 48 + d := by
  interval_cases d <;> decide

theorem digitChar_inj_lt {d d' : Nat} (h : d < 10) (h' : d' < 10)
    (he : digitChar d = digitChar d') : d = d' := by
  have h1 := digitChar_toNat h
  have h2 := digitChar_toNat h'
  rw [he] at h1
  omega

theorem digitChar_ne_underscore {d : Nat} (h : d < 10) : digitChar d ≠ '_' := by
  interval_cases d <;> decide

theorem map_digitChar_inj : ∀ l l' : List Nat, (∀ d ∈ l, d < 10) → (∀ d ∈ l', d < 10) →
    l.map digitChar = l'.map digitChar → l = l' := by
  intro l
  induction l with
  | nil => intro l' _ _ h; cases l' <;> simp_all
  | cons a as ih =>
    intro l' hl hl' h
    cases l' with
    | nil => simp at h
    | cons b bs =>
      simp only [List.map_cons, List.cons.injEq] at h
      have hab : a = b :=
        digitChar_inj_lt (hl a (by simp)) (hl' b (by simp)) h.1
      have : as = bs := ih bs (fun d hd => hl d (by simp [hd])) (fun d hd => hl' d (by simp [hd])) h.2
      simp [hab, this]

theorem natRepr_inj {a b : Nat} (h : natRepr a = natRepr b) : a = b := by
  have hd : ((natDigitsRev a).reverse.map digitChar) = ((natDigitsRev b).reverse.map digitChar) :=
    congrArg String.data h
  have hrev : (natDigitsRev a).reverse = (natDigitsRev b).reverse :=
    map_digitChar_inj _ _ (fun d hd => natDigitsRev_lt_ten (List.mem_reverse.mp hd))
      (fun d hd => natDigitsRev_lt_ten (List.mem_reverse.mp hd)) hd
  exact natDigitsRev_inj (List.reverse_injective hrev)

theorem natRepr_no_underscore (n : Nat) : '_' ∉ (natRepr n).data := by
  intro h
  simp only [natRepr] at h
  simp only [List.mem_map] at h
  obtain ⟨d, hd, hc⟩ := h
  exact digitChar_ne_underscore (natDigitsRev_lt_ten (List.mem_reverse.mp hd)) hc

theorem split_at_underscore : ∀ l1 l1' l2 l2' : List Char, '_' ∉ l1 → '_' ∉ l1' →
    l1 ++ '_' :: l2 = l1' ++ '_' :: l2' → l1 = l1' ∧ l2 = l2' := by
  intro l1
  induction l1 with
  | nil =>
    intro l1' l2 l2' _ h1' h
    cases l1' with
    | nil => simpa using h
    | cons b bs =>
      simp only [List.nil_append, List.cons_append, List.cons.injEq] at h
      exact absurd (by simp [← h.1]) h1'
  | cons a as ih =>
    intro l1' l2 l2' h1 h1' h
    cases l1' with
    | nil =>
      simp only [List.cons_append, List.nil_append, List.cons.injEq] at h
      exact absurd (by simp [h.1]) h1
    | cons b bs =>
      simp only [List.cons_append, List.cons.injEq] at h
      have := ih bs l2 l2' (fun hh => h1 (List.mem_cons_of_mem a hh))
        (fun hh => h1' (List.mem_cons_of_mem b hh)) h.2
      exact ⟨by simp [h.1, this.1], this.2⟩

theorem cliGenId_inj {s i s' i' : Nat} (h : cliGenId s i = cliGenId s' i') :
    s = s' ∧ i = i' := by
  have hd := congrArg String.data h
  simp only [cliGenId, String.data_append] at hd
  have hcall : ("call_".data ++ ((natRepr s).data ++ ("_".data ++ (natRepr i).data)))
      = ("call_".data ++ ((natRepr s').data ++ ("_".data ++ (natRepr i').data))) := by
    simpa [List.append_assoc] using hd
  have hmid : (natRepr s).data ++ '_' :: (natRepr i).data
      = (natRepr s').data ++ '_' :: (natRepr i').data := by
    have := List.append_cancel_left hcall
    simpa using this
  have hsplit := split_at_underscore _ _ _ _ (natRepr_no_underscore s) (natRepr_no_underscore s') hmid
  constructor
  · exact natRepr_inj (String.ext hsplit.1)
  · exact natRepr_inj (String.ext hsplit.2)

theorem bridgeGenId_inj {s s' : Nat} (h : bridgeGenId s = bridgeGenId s') : s = s' := by
  have hd := congrArg String.data h
  simp only [bridgeGenId, String.data_append] at hd
  exact natRepr_inj (String.ext (List.append_cancel_left hd))

/-- The code-point comparison is total. -/
theorem charListLe_total : ∀ l1 l2 : List Char, charListLe l1 l2 = true ∨ charListLe l2 l1 = true := by
  intro l1
  induction l1 with
  | nil => intro l2; left; rfl
  | cons a as ih =>
    intro l2
    cases l2 with
    | nil => right; rfl
    | cons b bs =>
      simp only [charListLe]
      by_cases hab : a.toNat < b.toNat
      · left
        simp [hab]
      · by_cases hba : b.toNat < a.toNat
        · right
          simp [hba]
        · rcases ih bs with h | h
          · left
            simp [hab, hba, h]
          · right
            simp [hab, hba, h]

/-- The code-point comparison is transitive. -/
theorem charListLe_trans : ∀ l1 l2 l3 : List Char, charListLe l1 l2 = true →
    charListLe l2 l3 = true → charListLe l1 l3 = true := by
  intro l1
  induction l1 with
  | nil => intro l2 l3 _ _; rfl
  | cons a as ih =>
    intro l2 l3 h12 h23
    cases l2 with
    | nil => simp [charListLe] at h12
    | cons b bs =>
      cases l3 with
      | nil => simp [charListLe] at h23
      | cons c cs =>
        simp only [charListLe] at h12 h23 ⊢
        by_cases hab : a.toNat < b.toNat
        · by_cases hbc : b.toNat < c.toNat
          · simp [show a.toNat < c.toNat from by omega]
          · by_cases hcb : c.toNat < b.toNat
            · simp [hbc, hcb] at h23
            · simp [show a.toNat < c.toNat from by omega]
        · by_cases hba : b.toNat < a.toNat
          · simp [hab, hba] at h12
          · by_cases hbc : b.toNat < c.toNat
            · simp [show a.toNat < c.toNat from by omega]
            · by_cases hcb : c.toNat < b.toNat
              · simp [hbc, hcb] at h23
              · rw [if_neg hab, if_neg hba] at h12
                rw [if_neg hbc, if_neg hcb] at h23
                have hac : ¬ a.toNat < c.toNat := by omega
                have hca : ¬ c.toNat < a.toNat := by omega
                rw [if_neg hac, if_neg hca]
                exact ih bs cs h12 h23

/-- String comparison is total. -/
theorem pyStrLe_total (a b : String) : pyStrLe a b = true ∨ pyStrLe b a = true :=
  charListLe_total a.data b.data

/-- String comparison is transitive. -/
theorem pyStrLe_trans {a b c : String} (h1 : pyStrLe a b = true) (h2 : pyStrLe b c = true) :
    pyStrLe a c = true :=
  charListLe_trans a.data b.data c.data h1 h2

/-- Membership is preserved by sorted insertion. -/
theorem mem_insertSortedStr (a x : String) : ∀ l, a ∈ insertSortedStr x l ↔ a = x ∨ a ∈ l := by
  intro l
  induction l with
  | nil => simp [insertSortedStr]
  | cons y ys ih =>
    simp only [insertSortedStr]
    cases hb : pyStrLe x y with
    | true =>
      simp only [if_true, List.mem_cons]
    | false =>
      simp only [Bool.false_eq_true, if_false, List.mem_cons, ih]
      tauto

/-- The model of Python `sorted` keeps exactly the input's members. -/
theorem mem_sortedStrings (a : String) : ∀ l, a ∈ sortedStrings l ↔ a ∈ l := by
  intro l
  induction l with
  | nil => simp [sortedStrings]
  | cons x xs ih =>
    simp only [sortedStrings, mem_insertSortedStr, ih, List.mem_cons]

/-- Sorted insertion preserves pairwise sortedness. -/
theorem insertSortedStr_pairwise (x : String) :
    ∀ l, List.Pairwise (fun a b => pyStrLe a b = true) l →
      List.Pairwise (fun a b => pyStrLe a b = true) (insertSortedStr x l) := by
  intro l
  induction l with
  | nil => intro _; simp [insertSortedStr]
  | cons y ys ih =>
    intro hp
    rcases List.pairwise_cons.mp hp with ⟨hy, hys⟩
    cases hb : pyStrLe x y with
    | true =>
      simp only [insertSortedStr, hb, if_true]
      refine List.pairwise_cons.mpr ⟨?_, hp⟩
      intro b hmem
      rcases List.mem_cons.mp hmem with hmem | hmem
      · subst hmem
        exact hb
      · exact pyStrLe_trans hb (hy b hmem)
    | false =>
      simp only [insertSortedStr, hb, Bool.false_eq_true, if_false]
      refine List.pairwise_cons.mpr ⟨?_, ih hys⟩
      intro b hmem
      rcases (mem_insertSortedStr b x ys).mp hmem with hmem | hmem
      · subst hmem
        rcases pyStrLe_total b y with hh | hh
        · rw [hb] at hh
          cases hh
        · exact hh
      · exact hy b hmem

/-- The model of Python `sorted` produces a pairwise-sorted list. -/
theorem sortedStrings_pairwise :
    ∀ l, List.Pairwise (fun a b => pyStrLe a b = true) (sortedStrings l) := by
  intro l
  induction l with
  | nil => simp [sortedStrings]
  | cons x xs ih => exact insertSortedStr_pairwise x _ ih

/-- A registry lookup that succeeds finds a registered pair. -/
theorem lookupReg_mem : ∀ (regs : Registry) (n : String) (ex : Executor),
    lookupReg regs n = some ex → (n, ex) ∈ regs := by
  intro regs
  induction regs with
  | nil => intro n ex h; simp [lookupReg] at h
  | cons p rest ih =>
    intro n ex h
    rcases p with ⟨k, e⟩
    simp only [lookupReg] at h
    by_cases hk : k = n
    · rw [if_pos hk] at h
      injection h with h'
      subst h'
      subst hk
      exact List.mem_cons_self _ _
    · rw [if_neg hk] at h
      exact List.mem_cons_of_mem _ (ih n ex h)

/-- Executor resolution succeeds only on a string name that is
registered. -/
theorem lookupExec_some {regs : Registry} {nm : Option J} {ex : Executor}
    (h : lookupExec regs nm = some ex) :
    ∃ n, nm = some (J.str n) ∧ lookupReg regs n = some ex := by
  match nm with
  | none => simp [lookupExec] at h
  | some (J.str n) => exact ⟨n, rfl, h⟩
  | some J.null => simp [lookupExec] at h
  | some (J.boolv b) => simp [lookupExec] at h
  | some (J.num v) => simp [lookupExec] at h
  | some (J.arr l) => simp [lookupExec] at h
  | some (J.obj l) => simp [lookupExec] at h

/-- Bridge dispatch only emits `tool_call` and `tool_result` events,
never a terminal one. -/
theorem bridgeDispatch_no_terminal (regs : Registry) (jl : String → Option J) (step : Nat) :
    ∀ calls e, e ∈ (bridgeDispatch regs jl step calls).events → isTerminal e = false := by
  intro calls
  induction calls with
  | nil => intro e h; simp [bridgeDispatch] at h
  | cons call rest ih =>
    intro e h
    simp only [bridgeDispatch] at h
    split at h
    · simp only [List.mem_cons] at h
      rcases h with h | h | h
      · simp [h, isTerminal]
      · simp [h, isTerminal]
      · exact ih e h
    · split at h
      · simp only [List.mem_cons, List.not_mem_nil, or_false] at h
        simp [h, isTerminal]
      · simp only [List.mem_cons] at h
        rcases h with h | h | h
        · simp [h, isTerminal]
        · simp [h, isTerminal]
        · exact ih e h

/-- Under a registry of non-raising executors, a CLI dispatch pass never
aborts. -/
theorem cliDispatch_ok (regs : Registry) (jl : String → Option J) (ht : ExecsTotal regs)
    (step : Nat) : ∀ calls idx, (cliDispatch regs jl step idx calls).raised = none := by
  intro calls
  induction calls with
  | nil => intro idx; simp [cliDispatch]
  | cons call rest ih =>
    intro idx
    simp only [cliDispatch]
    rcases hle : lookupExec regs ((pyOr (call.get "function") (J.obj [])).get "name") with _ | ex
    · simp only [hle]
      exact ih (idx + 1)
    · simp only [hle]
      obtain ⟨n, hn, hreg⟩ := lookupExec_some hle
      obtain ⟨v, hv⟩ := ht n ex (lookupReg_mem regs n ex hreg)
        (if isDict (_safe_json_loads jl (pyOr ((pyOr (call.get "function") (J.obj [])).get "arguments") (J.str "\x7b\x7d")))
         then _safe_json_loads jl (pyOr ((pyOr (call.get "function") (J.obj [])).get "arguments") (J.str "\x7b\x7d"))
         else J.obj [])
      simp only [hv]
      exact ih (idx + 1)

/-- Under a registry of non-raising executors, a bridge dispatch pass
never aborts. -/
theorem bridgeDispatch_ok (regs : Registry) (jl : String → Option J) (ht : ExecsTotal regs)
    (step : Nat) : ∀ calls, (bridgeDispatch regs jl step calls).raised = none := by
  intro calls
  induction calls with
  | nil => simp [bridgeDispatch]
  | cons call rest ih =>
    simp only [bridgeDispatch]
    rcases hle : lookupExec regs ((pyOr (call.get "function") (J.obj [])).get "name") with _ | ex
    · simp only [hle]
      exact ih
    · simp only [hle]
      obtain ⟨n, hn, hreg⟩ := lookupExec_some hle
      obtain ⟨v, hv⟩ := ht n ex (lookupReg_mem regs n ex hreg)
        (if isDict (_safe_json_loads jl (pyOr ((pyOr (call.get "function") (J.obj [])).get "arguments") (J.str "\x7b\x7d")))
         then _safe_json_loads jl (pyOr ((pyOr (call.get "function") (J.obj [])).get "arguments") (J.str "\x7b\x7d"))
         else J.obj [])
      simp only [hv]
      exact ih

/-- The argument actually handed to a resolved executor
(`args if isinstance(args, dict) else {}`) is always a dict. -/
theorem isDict_dictify (a : J) : isDict (if isDict a then a else J.obj []) = true := by
  by_cases h : isDict a = true
  · simp [h]
  · simp only [Bool.not_eq_true] at h
    rw [h]
    simp [isDict]

/-- Every executor invocation recorded by a CLI dispatch pass receives a
dict argument. -/
theorem cliDispatch_invs_dict (regs : Registry) (jl : String → Option J) (step : Nat) :
    ∀ calls idx p, p ∈ (cliDispatch regs jl step idx calls).invs → isDict p.2 = true := by
  intro calls
  induction calls with
  | nil => intro idx p h; simp [cliDispatch] at h
  | cons call rest ih =>
    intro idx p h
    simp only [cliDispatch] at h
    split at h
    · exact ih (idx + 1) p h
    · split at h
      · simp only [List.mem_cons, List.not_mem_nil, or_false] at h
        subst h
        exact isDict_dictify _
      · simp only [List.mem_cons] at h
        rcases h with h | h
        · subst h
          exact isDict_dictify _
        · exact ih (idx + 1) p h

/-- Every executor invocation recorded by a bridge dispatch pass
receives a dict argument. -/
theorem bridgeDispatch_invs_dict (regs : Registry) (jl : String → Option J) (step : Nat) :
    ∀ calls p, p ∈ (bridgeDispatch regs jl step calls).invs → isDict p.2 = true := by
  intro calls
  induction calls with
  | nil => intro p h; simp [bridgeDispatch] at h
  | cons call rest ih =>
    intro p h
    simp only [bridgeDispatch] at h
    split at h
    · exact ih p h
    · split at h
      · simp only [List.mem_cons, List.not_mem_nil, or_false] at h
        subst h
        exact isDict_dictify _
      · simp only [List.mem_cons] at h
        rcases h with h | h
        · subst h
          exact isDict_dictify _
        · exact ih p h

/-- Every run suffix produced by the bridge step loop either contains no
terminal event at all (possible only under a disconnect) or consists of
non-terminal events followed by exactly one terminal event in final
position. -/
theorem bridgeLoop_shape (cfg : BridgeCfg) (ores : Nat → Except String J) (dis : Nat → Bool)
    (jl : String → Option J) (key : String) :
    ∀ fuel step messages,
      (∀ e ∈ (bridgeLoop cfg ores dis jl key step fuel messages).events, isTerminal e = false) ∨
      (∃ front t, (bridgeLoop cfg ores dis jl key step fuel messages).events = front ++ [t] ∧
        isTerminal t = true ∧ ∀ e ∈ front, isTerminal e = false) := by
  intro fuel
  induction fuel with
  | zero =>
    intro step messages
    right
    exact ⟨[], .errorEv (bridgeBudgetMsg cfg.max_steps), by simp [bridgeLoop], rfl, by simp⟩
  | succ f ih =>
    intro step messages
    by_cases hdis : dis step = true
    · left
      simp [bridgeLoop, hdis]
    · simp only [Bool.not_eq_true] at hdis
      rcases hor : ores step with e | resp
      · right
        refine ⟨[Event.requestEv step (reqPreview cfg messages)], .errorEv e, ?_, rfl, ?_⟩
        · simp [bridgeLoop, hdis, hor]
        · intro e' he'
          simp only [List.mem_singleton] at he'
          simp [he', isTerminal]
      · cases htr : truthy (_extract_message resp) with
        | false =>
          right
          refine ⟨[Event.requestEv step (reqPreview cfg messages)], .errorEv bridgeEmptyMsg, ?_, rfl, ?_⟩
          · simp [bridgeLoop, hdis, hor, htr]
          · intro e' he'
            simp only [List.mem_singleton] at he'
            simp [he', isTerminal]
        | true =>
          rcases htc : _extract_tool_calls (_extract_message resp) with _ | ⟨c, cs⟩
          · right
            refine ⟨[Event.requestEv step (reqPreview cfg messages),
              Event.responseEv step (respPayload cfg (_extract_message resp) [])],
              .finalEv (contentText (_extract_message resp)), ?_, rfl, ?_⟩
            · simp [bridgeLoop, hdis, hor, htr, htc]
            · intro e' he'
              simp only [List.mem_cons, List.not_mem_nil, or_false] at he'
              rcases he' with he' | he'
              · simp [he', isTerminal]
              · simp [he', isTerminal]
          · rcases hr : (bridgeDispatch cfg.regs jl step (c :: cs)).raised with _ | e
            · rcases ih (step + 1) ((messages ++ [_extract_message resp]) ++
                (bridgeDispatch cfg.regs jl step (c :: cs)).msgs) with hall | ⟨front, t, heq, hterm, hfront⟩
              · left
                intro e' he'
                simp only [bridgeLoop, hdis, hor, htr, htc, hr] at he'
                simp only [Bool.true_eq_false, Bool.false_eq_true, if_false, List.mem_cons,
                  List.mem_append] at he'
                rcases he' with he' | he' | he' | he'
                · simp [he', isTerminal]
                · simp [he', isTerminal]
                · exact bridgeDispatch_no_terminal cfg.regs jl step (c :: cs) e' he'
                · exact hall e' he'
              · right
                refine ⟨Event.requestEv step (reqPreview cfg messages) ::
                  Event.responseEv step (respPayload cfg (_extract_message resp) (c :: cs)) ::
                  ((bridgeDispatch cfg.regs jl step (c :: cs)).events ++ front), t, ?_, hterm, ?_⟩
                · simp only [bridgeLoop, hdis, hor, htr, htc, hr]
                  simp only [Bool.true_eq_false, Bool.false_eq_true, if_false]
                  rw [heq]
                  simp [List.append_assoc]
                · intro e' he'
                  simp only [List.mem_cons, List.mem_append] at he'
                  rcases he' with he' | he' | he' | he'
                  · simp [he', isTerminal]
                  · simp [he', isTerminal]
                  · exact bridgeDispatch_no_terminal cfg.regs jl step (c :: cs) e' he'
                  · exact hfront e' he'
            · right
              refine ⟨Event.requestEv step (reqPreview cfg messages) ::
                Event.responseEv step (respPayload cfg (_extract_message resp) (c :: cs)) ::
                (bridgeDispatch cfg.regs jl step (c :: cs)).events, .errorEv e, ?_, rfl, ?_⟩
              · simp [bridgeLoop, hdis, hor, htr, htc, hr]
              · intro e' he'
                simp only [List.mem_cons] at he'
                rcases he' with he' | he' | he'
                · simp [he', isTerminal]
                · simp [he', isTerminal]
                · exact bridgeDispatch_no_terminal cfg.regs jl step (c :: cs) e' he'

/-- When the cancellation signal is never observed, the bridge step loop
always ends in exactly one terminal event, in final position. -/
theorem bridgeLoop_nodis (cfg : BridgeCfg) (ores : Nat → Except String J) (dis : Nat → Bool)
    (jl : String → Option J) (key : String) (hd : ∀ k, dis k = false) :
    ∀ fuel step messages,
      ∃ front t, (bridgeLoop cfg ores dis jl key step fuel messages).events = front ++ [t] ∧
        isTerminal t = true ∧ ∀ e ∈ front, isTerminal e = false := by
  intro fuel
  induction fuel with
  | zero =>
    intro step messages
    exact ⟨[], .errorEv (bridgeBudgetMsg cfg.max_steps), by simp [bridgeLoop], rfl, by simp⟩
  | succ f ih =>
    intro step messages
    rcases hor : ores step with e | resp
    · refine ⟨[Event.requestEv step (reqPreview cfg messages)], .errorEv e, ?_, rfl, ?_⟩
      · simp [bridgeLoop, hd step, hor]
      · intro e' he'
        simp only [List.mem_singleton] at he'
        simp [he', isTerminal]
    · cases htr : truthy (_extract_message resp) with
      | false =>
        refine ⟨[Event.requestEv step (reqPreview cfg messages)], .errorEv bridgeEmptyMsg, ?_, rfl, ?_⟩
        · simp [bridgeLoop, hd step, hor, htr]
        · intro e' he'
          simp only [List.mem_singleton] at he'
          simp [he', isTerminal]
      | true =>
        rcases htc : _extract_tool_calls (_extract_message resp) with _ | ⟨c, cs⟩
        · refine ⟨[Event.requestEv step (reqPreview cfg messages),
            Event.responseEv step (respPayload cfg (_extract_message resp) [])],
            .finalEv (contentText (_extract_message resp)), ?_, rfl, ?_⟩
          · simp [bridgeLoop, hd step, hor, htr, htc]
          · intro e' he'
            simp only [List.mem_cons, List.not_mem_nil, or_false] at he'
            rcases he' with he' | he'
            · simp [he', isTerminal]
            · simp [he', isTerminal]
        · rcases hr : (bridgeDispatch cfg.regs jl step (c :: cs)).raised with _ | e
          · obtain ⟨front, t, heq, hterm, hfront⟩ := ih (step + 1)
              ((messages ++ [_extract_message resp]) ++ (bridgeDispatch cfg.regs jl step (c :: cs)).msgs)
            refine ⟨Event.requestEv step (reqPreview cfg messages) ::
              Event.responseEv step (respPayload cfg (_extract_message resp) (c :: cs)) ::
              ((bridgeDispatch cfg.regs jl step (c :: cs)).events ++ front), t, ?_, hterm, ?_⟩
            · simp only [bridgeLoop, hd step, hor, htr, htc, hr]
              simp only [Bool.true_eq_false, Bool.false_eq_true, if_false]
              rw [heq]
              simp [List.append_assoc]
            · intro e' he'
              simp only [List.mem_cons, List.mem_append] at he'
              rcases he' with he' | he' | he' | he'
              · simp [he', isTerminal]
              · simp [he', isTerminal]
              · exact bridgeDispatch_no_terminal cfg.regs jl step (c :: cs) e' he'
              · exact hfront e' he'
          · refine ⟨Event.requestEv step (reqPreview cfg messages) ::
              Event.responseEv step (respPayload cfg (_extract_message resp) (c :: cs)) ::
              (bridgeDispatch cfg.regs jl step (c :: cs)).events, .errorEv e, ?_, rfl, ?_⟩
            · simp [bridgeLoop, hd step, hor, htr, htc, hr]
            · intro e' he'
              simp only [List.mem_cons] at he'
              rcases he' with he' | he' | he'
              · simp [he', isTerminal]
              · simp [he', isTerminal]
              · exact bridgeDispatch_no_terminal cfg.regs jl step (c :: cs) e' he'

/-- Every `final` event produced by the bridge step loop originates from
a step whose response carried a truthy message without tool calls, and
its content is that message's stripped text. -/
theorem bridgeLoop_final_origin (cfg : BridgeCfg) (ores : Nat → Except String J) (dis : Nat → Bool)
    (jl : String → Option J) (key : String) :
    ∀ fuel step messages c,
      Event.finalEv c ∈ (bridgeLoop cfg ores dis jl key step fuel messages).events →
      ∃ k resp, step ≤ k ∧ k < step + fuel ∧ ores k = Except.ok resp ∧
        truthy (_extract_message resp) = true ∧
        _extract_tool_calls (_extract_message resp) = [] ∧
        c = contentText (_extract_message resp) := by
  intro fuel
  induction fuel with
  | zero =>
    intro step messages c h
    simp only [bridgeLoop, List.mem_singleton] at h
    cases h
  | succ f ih =>
    intro step messages c h
    by_cases hdis : dis step = true
    · simp [bridgeLoop, hdis] at h
    · simp only [Bool.not_eq_true] at hdis
      rcases hor : ores step with e | resp
      · simp only [bridgeLoop, hdis, hor] at h
        simp only [Bool.false_eq_true, if_false, List.mem_cons, List.not_mem_nil, or_false] at h
        rcases h with h | h <;> cases h
      · cases htr : truthy (_extract_message resp) with
        | false =>
          simp only [bridgeLoop, hdis, hor, htr] at h
          simp only [Bool.false_eq_true, if_false, if_true, List.mem_cons, List.not_mem_nil,
            or_false] at h
          rcases h with h | h <;> cases h
        | true =>
          rcases htc : _extract_tool_calls (_extract_message resp) with _ | ⟨c', cs⟩
          · simp only [bridgeLoop, hdis, hor, htr, htc] at h
            simp only [Bool.true_eq_false, Bool.false_eq_true, if_false, List.mem_cons,
              List.not_mem_nil, or_false] at h
            rcases h with h | h | h
            · cases h
            · cases h
            · injection h with hc
              exact ⟨step, resp, le_refl step, by omega, hor, htr, htc, hc⟩
          · rcases hr : (bridgeDispatch cfg.regs jl step (c' :: cs)).raised with _ | e
            · simp only [bridgeLoop, hdis, hor, htr, htc, hr] at h
              simp only [Bool.true_eq_false, Bool.false_eq_true, if_false, List.mem_cons,
                List.mem_append] at h
              rcases h with h | h | h | h
              · cases h
              · cases h
              · have := bridgeDispatch_no_terminal cfg.regs jl step (c' :: cs) _ h
                simp [isTerminal] at this
              · obtain ⟨k, resp', hk1, hk2, hrest⟩ := ih (step + 1) _ c h
                exact ⟨k, resp', by omega, by omega, hrest⟩
            · simp only [bridgeLoop, hdis, hor, htr, htc, hr] at h
              simp only [Bool.true_eq_false, Bool.false_eq_true, if_false, List.mem_cons,
                List.mem_append, List.mem_singleton] at h
              rcases h with h | h | h | h | h
              · cases h
              · cases h
              · have := bridgeDispatch_no_terminal cfg.regs jl step (c' :: cs) _ h
                simp [isTerminal] at this
              · cases h
              · cases h

/-- The last element of an appended list is that of its nonempty second
part. -/
theorem getLast?_append_of_getLast? {α : Type} {l2 : List α} {x : α} (l1 : List α)
    (h : l2.getLast? = some x) : (l1 ++ l2).getLast? = some x := by
  have hne : l2 ≠ [] := by
    intro he
    rw [he] at h
    cases h
  rw [List.getLast?_append_of_ne_nil _ hne]
  exact h

/-- Every request issued by the bridge step loop carries the credential
in its `Authorization` header, as `Bearer` followed by the key. -/
theorem bridgeLoop_auth (cfg : BridgeCfg) (ores : Nat → Except String J) (dis : Nat → Bool)
    (jl : String → Option J) (key : String) :
    ∀ fuel step messages r,
      r ∈ (bridgeLoop cfg ores dis jl key step fuel messages).reqs →
      r.authorization = "Bearer " ++ key := by
  intro fuel
  induction fuel with
  | zero =>
    intro step messages r h
    simp [bridgeLoop] at h
  | succ f ih =>
    intro step messages r h
    by_cases hdis : dis step = true
    · simp [bridgeLoop, hdis] at h
    · simp only [Bool.not_eq_true] at hdis
      rcases hor : ores step with e | resp
      · simp only [bridgeLoop, hdis, hor] at h
        simp only [Bool.false_eq_true, if_false, List.mem_singleton] at h
        simp [h, mkReq]
      · cases htr : truthy (_extract_message resp) with
        | false =>
          simp only [bridgeLoop, hdis, hor, htr] at h
          simp only [Bool.false_eq_true, if_false, if_true, List.mem_singleton] at h
          simp [h, mkReq]
        | true =>
          rcases htc : _extract_tool_calls (_extract_message resp) with _ | ⟨c, cs⟩
          · simp only [bridgeLoop, hdis, hor, htr, htc] at h
            simp only [Bool.true_eq_false, Bool.false_eq_true, if_false, List.mem_singleton] at h
            simp [h, mkReq]
          · rcases hr : (bridgeDispatch cfg.regs jl step (c :: cs)).raised with _ | e
            · simp only [bridgeLoop, hdis, hor, htr, htc, hr] at h
              simp only [Bool.true_eq_false, Bool.false_eq_true, if_false, List.mem_cons] at h
              rcases h with h | h
              · simp [h, mkReq]
              · exact ih (step + 1) _ r h
            · simp only [bridgeLoop, hdis, hor, htr, htc, hr] at h
              simp only [Bool.true_eq_false, Bool.false_eq_true, if_false, List.mem_singleton] at h
              simp [h, mkReq]

/-- The events, transcript and invocations of the bridge step loop do
not depend on the credential: the key flows only into the outgoing
requests. -/
theorem bridgeLoop_key_indep (cfg : BridgeCfg) (ores : Nat → Except String J) (dis : Nat → Bool)
    (jl : String → Option J) (k1 k2 : String) :
    ∀ fuel step messages,
      (bridgeLoop cfg ores dis jl k1 step fuel messages).events =
        (bridgeLoop cfg ores dis jl k2 step fuel messages).events ∧
      (bridgeLoop cfg ores dis jl k1 step fuel messages).msgs =
        (bridgeLoop cfg ores dis jl k2 step fuel messages).msgs ∧
      (bridgeLoop cfg ores dis jl k1 step fuel messages).invs =
        (bridgeLoop cfg ores dis jl k2 step fuel messages).invs := by
  intro fuel
  induction fuel with
  | zero =>
    intro step messages
    exact ⟨rfl, rfl, rfl⟩
  | succ f ih =>
    intro step messages
    by_cases hdis : dis step = true
    · simp [bridgeLoop, hdis]
    · simp only [Bool.not_eq_true] at hdis
      rcases hor : ores step with e | resp
      · simp [bridgeLoop, hdis, hor]
      · cases htr : truthy (_extract_message resp) with
        | false => simp [bridgeLoop, hdis, hor, htr]
        | true =>
          rcases htc : _extract_tool_calls (_extract_message resp) with _ | ⟨c, cs⟩
          · simp [bridgeLoop, hdis, hor, htr, htc]
          · rcases hr : (bridgeDispatch cfg.regs jl step (c :: cs)).raised with _ | e
            · obtain ⟨h1, h2, h3⟩ := ih (step + 1)
                ((messages ++ [_extract_message resp]) ++ (bridgeDispatch cfg.regs jl step (c :: cs)).msgs)
              simp only [bridgeLoop, hdis, hor, htr, htc, hr]
              simp only [Bool.true_eq_false, Bool.false_eq_true, if_false]
              exact ⟨by rw [h1], by rw [h2], by rw [h3]⟩
            · simp [bridgeLoop, hdis, hor, htr, htc, hr]

/-- Under step-covering tool-call responses, no disconnect, and a
non-raising registry, the CLI step loop consumes its entire fuel, one
request per step, and exits with the budget-exhausted error. -/
theorem cliLoop_budget (regs : Registry) (jl : String → Option J) (ores : Nat → Except String J)
    (ms : Nat) (ht : ExecsTotal regs) :
    ∀ fuel step messages, (∀ k, step ≤ k → k < step + fuel → OkWithCalls ores k) →
      (cliLoop regs jl ores ms step fuel messages).outcome = Except.error (cliBudgetMsg ms) ∧
      (cliLoop regs jl ores ms step fuel messages).nReq = fuel := by
  intro fuel
  induction fuel with
  | zero =>
    intro step messages _
    exact ⟨rfl, rfl⟩
  | succ f ih =>
    intro step messages hcov
    obtain ⟨resp, hor, htr, htc⟩ := hcov step (le_refl step) (by omega)
    rcases hcs : _extract_tool_calls (_extract_message resp) with _ | ⟨c, cs⟩
    · exact absurd hcs htc
    · have hr := cliDispatch_ok regs jl ht step (c :: cs) 1
      have hrec := ih (step + 1) ((messages ++ [_extract_message resp]) ++
        (cliDispatch regs jl step 1 (c :: cs)).msgs)
        (fun k hk1 hk2 => hcov k (by omega) (by omega))
      simp only [cliLoop, hor, htr, hcs, hr]
      simp only [Bool.true_eq_false, Bool.false_eq_true, if_false]
      refine ⟨hrec.1, ?_⟩
      rw [hrec.2]
      omega

/-- Under the same conditions the bridge step loop issues one request
per step and its event suffix ends with the budget-exhausted error
event. -/
theorem bridgeLoop_budget (cfg : BridgeCfg) (ores : Nat → Except String J) (dis : Nat → Bool)
    (jl : String → Option J) (key : String) (ht : ExecsTotal cfg.regs)
    (hd : ∀ k, dis k = false) :
    ∀ fuel step messages, (∀ k, step ≤ k → k < step + fuel → OkWithCalls ores k) →
      (bridgeLoop cfg ores dis jl key step fuel messages).reqs.length = fuel ∧
      (bridgeLoop cfg ores dis jl key step fuel messages).events.getLast? =
        some (.errorEv (bridgeBudgetMsg cfg.max_steps)) := by
  intro fuel
  induction fuel with
  | zero =>
    intro step messages _
    exact ⟨rfl, rfl⟩
  | succ f ih =>
    intro step messages hcov
    obtain ⟨resp, hor, htr, htc⟩ := hcov step (le_refl step) (by omega)
    rcases hcs : _extract_tool_calls (_extract_message resp) with _ | ⟨c, cs⟩
    · exact absurd hcs htc
    · have hr := bridgeDispatch_ok cfg.regs jl ht step (c :: cs)
      have hrec := ih (step + 1) ((messages ++ [_extract_message resp]) ++
        (bridgeDispatch cfg.regs jl step (c :: cs)).msgs)
        (fun k hk1 hk2 => hcov k (by omega) (by omega))
      simp only [bridgeLoop, hd step, hor, htr, hcs, hr]
      simp only [Bool.true_eq_false, Bool.false_eq_true, if_false]
      constructor
      · simp only [List.length_cons, hrec.1]
      · have h2 := hrec.2
        rw [show Event.requestEv step (reqPreview cfg messages) ::
          Event.responseEv step (respPayload cfg (_extract_message resp) (c :: cs)) ::
          ((bridgeDispatch cfg.regs jl step (c :: cs)).events ++
            (bridgeLoop cfg ores dis jl key (step + 1) f
              ((messages ++ [_extract_message resp]) ++
                (bridgeDispatch cfg.regs jl step (c :: cs)).msgs)).events) =
          (Event.requestEv step (reqPreview cfg messages) ::
            Event.responseEv step (respPayload cfg (_extract_message resp) (c :: cs)) ::
            (bridgeDispatch cfg.regs jl step (c :: cs)).events) ++
            (bridgeLoop cfg ores dis jl key (step + 1) f
              ((messages ++ [_extract_message resp]) ++
                (bridgeDispatch cfg.regs jl step (c :: cs)).msgs)).events
          from by simp]
        exact getLast?_append_of_getLast? _ h2

/-- With fuel available and no disconnect at the current step, the CLI
loop issues at least one request. -/
theorem cliLoop_nReq_pos (regs : Registry) (jl : String → Option J) (ores : Nat → Except String J)
    (ms : Nat) (fuel step : Nat) (messages : List J) :
    1 ≤ (cliLoop regs jl ores ms step (fuel + 1) messages).nReq := by
  rcases hor : ores step with e | resp
  · simp [cliLoop, hor]
  · cases htr : truthy (_extract_message resp) with
    | false => simp [cliLoop, hor, htr]
    | true =>
      rcases htc : _extract_tool_calls (_extract_message resp) with _ | ⟨c, cs⟩
      · simp [cliLoop, hor, htr, htc]
      · rcases hr : (cliDispatch regs jl step 1 (c :: cs)).raised with _ | e
        · simp [cliLoop, hor, htr, htc, hr]
        · simp [cliLoop, hor, htr, htc, hr]

/-- With fuel available and no disconnect at the current step, the
bridge loop issues at least one request. -/
theorem bridgeLoop_reqs_pos (cfg : BridgeCfg) (ores : Nat → Except String J) (dis : Nat → Bool)
    (jl : String → Option J) (key : String) (fuel step : Nat) (messages : List J)
    (hdis : dis step = false) :
    1 ≤ (bridgeLoop cfg ores dis jl key step (fuel + 1) messages).reqs.length := by
  rcases hor : ores step with e | resp
  · simp [bridgeLoop, hdis, hor]
  · cases htr : truthy (_extract_message resp) with
    | false => simp [bridgeLoop, hdis, hor, htr]
    | true =>
      rcases htc : _extract_tool_calls (_extract_message resp) with _ | ⟨c, cs⟩
      · simp [bridgeLoop, hdis, hor, htr, htc]
      · rcases hr : (bridgeDispatch cfg.regs jl step (c :: cs)).raised with _ | e
        · simp [bridgeLoop, hdis, hor, htr, htc, hr]
        · simp [bridgeLoop, hdis, hor, htr, htc, hr]

/-- Two strings with different first characters differ. -/
theorem ne_of_first_char {s t : String} {c c' : Char} (hs : s.data[0]? = some c)
    (ht : t.data[0]? = some c') (hne : c ≠ c') : s ≠ t := by
  intro h
  rw [h, ht] at hs
  injection hs with hs
  exact hne hs.symm

/-- The CLI budget error text starts with its own distinctive first
character, whatever the budget. -/
theorem cliBudgetMsg_head (n : Nat) : (cliBudgetMsg n).data[0]? = some '达' := by
  simp only [cliBudgetMsg, String.data_append, List.append_assoc]
  rw [List.getElem?_append_left (by decide)]
  rfl

/-- The bridge budget error text starts with its own distinctive first
character, whatever the budget. -/
theorem bridgeBudgetMsg_head (n : Nat) : (bridgeBudgetMsg n).data[0]? = some '达' := by
  simp only [bridgeBudgetMsg, String.data_append, List.append_assoc]
  rw [List.getElem?_append_left (by decide)]
  rfl

/-- The full `_chat_sse` event stream either has no terminal event (only
possible for a cancelled run) or is a clean prefix followed by exactly
one terminal event. -/
theorem chatSSE_shape (cfg : BridgeCfg) (ores : Nat → Except String J) (dis : Nat → Bool)
    (jl : String → Option J) :
    (∀ e ∈ (_chat_sse cfg ores dis jl).events, isTerminal e = false) ∨
    (∃ front t, (_chat_sse cfg ores dis jl).events = front ++ [t] ∧ isTerminal t = true ∧
      ∀ e ∈ front, isTerminal e = false) := by
  by_cases hq : pyStrip cfg.query = ""
  · right
    exact ⟨[], .errorEv missingQueryMsg, by simp [_chat_sse, hq], rfl, by simp⟩
  · rcases hak : cfg.api_key with _ | key
    · right
      exact ⟨[], .errorEv missingKeyMsg, by simp [_chat_sse, hq, hak], rfl, by simp⟩
    · by_cases hke : key = ""
      · right
        exact ⟨[], .errorEv missingKeyMsg, by simp [_chat_sse, hq, hak, hke], rfl, by simp⟩
      · by_cases htl : cfg.tools.isEmpty = true
        · right
          refine ⟨[Event.metaEv cfg.server_url cfg.base_url cfg.model cfg.max_steps,
            Event.statusEv statusText,
            Event.toolsEv cfg.tools.length (if cfg.verbose then J.arr cfg.tools else J.null)],
            .errorEv noToolsMsg, by simp [_chat_sse, hq, hak, hke, htl], rfl, ?_⟩
          intro e he
          simp only [List.mem_cons, List.not_mem_nil, or_false] at he
          rcases he with he | he | he <;> simp [he, isTerminal]
        · simp only [Bool.not_eq_true] at htl
          rcases bridgeLoop_shape cfg ores dis jl key cfg.max_steps 1 (initMessages (pyStrip cfg.query))
            with hall | ⟨front, t, heq, hterm, hfront⟩
          · left
            intro e he
            simp only [_chat_sse, hq, hak, hke, htl] at he
            simp only [if_neg hq, Bool.false_eq_true, if_false, List.mem_cons] at he
            rcases he with he | he | he | he
            · simp [he, isTerminal]
            · simp [he, isTerminal]
            · simp [he, isTerminal]
            · exact hall e he
          · right
            refine ⟨Event.metaEv cfg.server_url cfg.base_url cfg.model cfg.max_steps ::
              Event.statusEv statusText ::
              Event.toolsEv cfg.tools.length (if cfg.verbose then J.arr cfg.tools else J.null) ::
              front, t, ?_, hterm, ?_⟩
            · simp only [_chat_sse, hq, hak, hke, htl]
              simp only [if_neg hq, Bool.false_eq_true, if_false]
              rw [heq]
              simp
            · intro e he
              simp only [List.mem_cons] at he
              rcases he with he | he | he | he
              · simp [he, isTerminal]
              · simp [he, isTerminal]
              · simp [he, isTerminal]
              · exact hfront e he

/-- A sub-kind of terminal events occurs at most once in an event list
of the shape established above. -/
theorem shape_count_le (l : List Event) (p : Event → Bool)
    (hp : ∀ e, p e = true → isTerminal e = true)
    (h : (∀ e ∈ l, isTerminal e = false) ∨
      (∃ front t, l = front ++ [t] ∧ isTerminal t = true ∧ ∀ e ∈ front, isTerminal e = false)) :
    (l.filter p).length ≤ 1 := by
  rcases h with hall | ⟨front, t, heq, hterm, hfront⟩
  · have : l.filter p = [] := by
      rw [List.filter_eq_nil_iff]
      intro a ha hpa
      have := hp a hpa
      rw [hall a ha] at this
      cases this
    simp [this]
  · subst heq
    rw [List.filter_append]
    have h1 : front.filter p = [] := by
      rw [List.filter_eq_nil_iff]
      intro a ha hpa
      have := hp a hpa
      rw [hfront a ha] at this
      cases this
    rw [h1]
    simp only [List.nil_append]
    cases hpt : p t <;> simp [List.filter, hpt]

/-- Every `final` event of a full `_chat_sse` run originates from a step
within the budget whose response carried a truthy message without tool
calls; its content is that message's stripped text. -/
theorem chatSSE_final_origin (cfg : BridgeCfg) (ores : Nat → Except String J) (dis : Nat → Bool)
    (jl : String → Option J) :
    ∀ c, Event.finalEv c ∈ (_chat_sse cfg ores dis jl).events →
      ∃ k resp, 1 ≤ k ∧ k ≤ cfg.max_steps ∧ ores k = Except.ok resp ∧
        truthy (_extract_message resp) = true ∧
        _extract_tool_calls (_extract_message resp) = [] ∧
        c = contentText (_extract_message resp) := by
  intro c hc
  by_cases hq : pyStrip cfg.query = ""
  · simp [_chat_sse, hq] at hc
  · rcases hak : cfg.api_key with _ | key
    · simp [_chat_sse, hq, hak] at hc
    · by_cases hke : key = ""
      · simp [_chat_sse, hq, hak, hke] at hc
      · by_cases htl : cfg.tools.isEmpty = true
        · simp [_chat_sse, hq, hak, hke, htl] at hc
        · simp only [Bool.not_eq_true] at htl
          simp only [_chat_sse, hq, hak, hke, htl] at hc
          simp only [if_neg hq, Bool.false_eq_true, if_false, List.mem_cons] at hc
          rcases hc with hc | hc | hc | hc
          · cases hc
          · cases hc
          · cases hc
          · obtain ⟨k, resp, hk1, hk2, hrest⟩ :=
              bridgeLoop_final_origin cfg ores dis jl key cfg.max_steps 1
                (initMessages (pyStrip cfg.query)) c hc
            exact ⟨k, resp, hk1, by omega, hrest⟩

/-- C1: in both closed loops (CLI `run_closed_loop` and bridge
`_chat_sse`), if the assistant message at a step within the budget
carries no tool calls, the run appends nothing further to the
transcript, the bridge emits exactly the `request`, `response` and one
`final` event whose content is the message's stripped text and nothing
after it, the CLI returns that text after this single request, and —
across any whole bridge run — a `final` event can only arise this way
and occurs at most once. -/
theorem c1_no_tool_calls_final (cfg : BridgeCfg) (ores : Nat → Except String J)
    (dis : Nat → Bool) (jl : String → Option J) (key : String) (step f : Nat)
    (messages : List J) (resp : J) (regs : Registry) (ms : Nat)
    (hdis : dis step = false) (hor : ores step = Except.ok resp)
    (htr : truthy (_extract_message resp) = true)
    (htc : _extract_tool_calls (_extract_message resp) = []) :
    (bridgeLoop cfg ores dis jl key step (f + 1) messages =
      ⟨[Event.requestEv step (reqPreview cfg messages),
        Event.responseEv step (respPayload cfg (_extract_message resp) []),
        Event.finalEv (contentText (_extract_message resp))],
        [mkReq cfg key messages], messages, []⟩) ∧
    (cliLoop regs jl ores ms step (f + 1) messages =
      ⟨Except.ok (contentText (_extract_message resp)), 1, messages, []⟩) ∧
    (∀ c, Event.finalEv c ∈ (_chat_sse cfg ores dis jl).events →
      ∃ k resp', 1 ≤ k ∧ k ≤ cfg.max_steps ∧ ores k = Except.ok resp' ∧
        truthy (_extract_message resp') = true ∧
        _extract_tool_calls (_extract_message resp') = [] ∧
        c = contentText (_extract_message resp')) ∧
    ((_chat_sse cfg ores dis jl).events.filter isFinal).length ≤ 1 := by
  refine ⟨?_, ?_, chatSSE_final_origin cfg ores dis jl, ?_⟩
  · simp [bridgeLoop, hdis, hor, htr, htc]
  · simp [cliLoop, hor, htr, htc]
  · exact shape_count_le _ isFinal
      (fun e he => by cases e <;> simp_all [isFinal, isTerminal])
      (chatSSE_shape cfg ores dis jl)

/-- Witness for C1 at a concrete run: one no-tool-call response at step
1 finalizes both loops with the stripped text `done` after exactly one
request, appending nothing. -/
theorem c1_no_tool_calls_final_witness :
    (bridgeLoop (mkCfg 8 regsTotal) oresFinal1 (fun _ => false) jlFix "K" 1 8 (initMessages "q") =
      ⟨[Event.requestEv 1 (reqPreview (mkCfg 8 regsTotal) (initMessages "q")),
        Event.responseEv 1 (respPayload (mkCfg 8 regsTotal)
          (_extract_message (respMsgFinal " done ")) []),
        Event.finalEv "done"],
        [mkReq (mkCfg 8 regsTotal) "K" (initMessages "q")], initMessages "q", []⟩) ∧
    (cliLoop regsTotal jlFix oresFinal1 8 1 8 (initMessages "q") =
      ⟨Except.ok "done", 1, initMessages "q", []⟩) := by
  have h := c1_no_tool_calls_final (mkCfg 8 regsTotal) oresFinal1 (fun _ => false) jlFix "K" 1 7
    (initMessages "q") (respMsgFinal " done ") regsTotal 8 rfl rfl rfl rfl
  exact ⟨h.1, h.2.1⟩

/-- Total executor registries used by the witnesses. -/
theorem regsTotal_total : ExecsTotal regsTotal := by
  intro n ex h a
  simp only [regsTotal, List.mem_cons, List.not_mem_nil, or_false, Prod.mk.injEq] at h
  rcases h with ⟨h1, h2⟩ | ⟨h1, h2⟩
  · subst h2
    exact ⟨J.obj [("echo", a)], rfl⟩
  · subst h2
    exact ⟨J.obj [("ok", J.num 1)], rfl⟩

/-- C2: with a step budget of `N ≥ 1`, if every response within the
budget carries at least one tool call (and tool execution itself never
raises, nor is the run cancelled), both closed loops issue exactly `N`
chat-completion requests — never `N + 1` — and terminate with the
budget-exhausted error, whose text is distinct from every other fixed
error text of the loops. -/
theorem c2_budget_exhausted (cfg : BridgeCfg) (regs : Registry) (jl : String → Option J)
    (ores : Nat → Except String J) (dis : Nat → Bool) (q key : String) (N : Nat)
    (_hN : 1 ≤ N) (hms : cfg.max_steps = N)
    (hcov : ∀ k, 1 ≤ k → k ≤ N → OkWithCalls ores k)
    (htot : ExecsTotal regs) (htotb : ExecsTotal cfg.regs)
    (hd : ∀ k, dis k = false)
    (hq : pyStrip cfg.query ≠ "") (hak : cfg.api_key = some key) (hke : key ≠ "")
    (htl : cfg.tools.isEmpty = false) :
    (run_closed_loop regs jl ores N q).nReq = N ∧
    (run_closed_loop regs jl ores N q).outcome = Except.error (cliBudgetMsg N) ∧
    (_chat_sse cfg ores dis jl).reqs.length = N ∧
    (_chat_sse cfg ores dis jl).events.getLast? = some (.errorEv (bridgeBudgetMsg N)) ∧
    cliBudgetMsg N ≠ cliEmptyMsg ∧ bridgeBudgetMsg N ≠ bridgeEmptyMsg ∧
    bridgeBudgetMsg N ≠ missingQueryMsg ∧ bridgeBudgetMsg N ≠ missingKeyMsg ∧
    bridgeBudgetMsg N ≠ noToolsMsg := by
  have hcli := cliLoop_budget regs jl ores N htot N 1 (initMessages q)
    (fun k h1 h2 => hcov k h1 (by omega))
  have hbr := bridgeLoop_budget cfg ores dis jl key htotb hd cfg.max_steps 1
    (initMessages (pyStrip cfg.query)) (fun k h1 h2 => hcov k h1 (by omega))
  refine ⟨hcli.2, hcli.1, ?_, ?_,
    ne_of_first_char (cliBudgetMsg_head N) rfl (by decide),
    ne_of_first_char (bridgeBudgetMsg_head N) rfl (by decide),
    ne_of_first_char (bridgeBudgetMsg_head N) rfl (by decide),
    ne_of_first_char (bridgeBudgetMsg_head N) rfl (by decide),
    ne_of_first_char (bridgeBudgetMsg_head N) rfl (by decide)⟩
  · simp only [_chat_sse, hak]
    simp only [if_neg hq, if_neg hke, htl, Bool.false_eq_true, if_false]
    rw [hbr.1, hms]
  · simp only [_chat_sse, hak]
    simp only [if_neg hq, if_neg hke, htl, Bool.false_eq_true, if_false]
    rw [show Event.metaEv cfg.server_url cfg.base_url cfg.model cfg.max_steps ::
      Event.statusEv statusText ::
      Event.toolsEv cfg.tools.length (if cfg.verbose then J.arr cfg.tools else J.null) ::
      (bridgeLoop cfg ores dis jl key 1 cfg.max_steps (initMessages (pyStrip cfg.query))).events =
      [Event.metaEv cfg.server_url cfg.base_url cfg.model cfg.max_steps,
        Event.statusEv statusText,
        Event.toolsEv cfg.tools.length (if cfg.verbose then J.arr cfg.tools else J.null)] ++
      (bridgeLoop cfg ores dis jl key 1 cfg.max_steps (initMessages (pyStrip cfg.query))).events
      from by simp]
    rw [getLast?_append_of_getLast? _ hbr.2, hms]

/-- Witness for C2 at `N = 2`: every response carries one tool call, so
both loops issue exactly two requests and fail with the budget error. -/
theorem c2_budget_exhausted_witness :
    (run_closed_loop regsTotal jlFix oresCalls2 2 "q").nReq = 2 ∧
    (run_closed_loop regsTotal jlFix oresCalls2 2 "q").outcome =
      Except.error (cliBudgetMsg 2) ∧
    (_chat_sse (mkCfg 2 regsTotal) oresCalls2 (fun _ => false) jlFix).reqs.length = 2 ∧
    (_chat_sse (mkCfg 2 regsTotal) oresCalls2 (fun _ => false) jlFix).events.getLast? =
      some (.errorEv (bridgeBudgetMsg 2)) := by
  have h := c2_budget_exhausted (mkCfg 2 regsTotal) regsTotal jlFix oresCalls2 (fun _ => false)
    "q" "K" 2 (by decide) rfl
    (fun k h1 h2 => by
      refine ⟨respMsgCalls [mkCallJ (some "c1") "echo" "\x7b\x7d"], ?_, rfl, ?_⟩
      · interval_cases k <;> rfl
      · exact List.cons_ne_nil _ _)
    regsTotal_total regsTotal_total (fun _ => rfl) (by decide) rfl (by decide) rfl
  exact ⟨h.1, h.2.1, h.2.2.1, h.2.2.2.1⟩

/-- Counterexample to C3: in the bridge run below the resolved executor
`boom` raises; the failure is NOT captured as a tool result — the run
emits no `tool_result` event, appends no tool message, issues no further
LLM request (exactly one request total, not two), and ends with a
terminal `error` event carrying the executor's exception text. -/
theorem c3_executor_raise_counterexample :
    ((_chat_sse (mkCfg 3 regsBoom) oresBoom1 (fun _ => false) jlFix).reqs.length = 1) ∧
    ((_chat_sse (mkCfg 3 regsBoom) oresBoom1 (fun _ => false) jlFix).events.getLast? =
      some (.errorEv "boom failed")) ∧
    (((_chat_sse (mkCfg 3 regsBoom) oresBoom1 (fun _ => false) jlFix).events.filter
      isToolResult).length = 0) ∧
    ((_chat_sse (mkCfg 3 regsBoom) oresBoom1 (fun _ => false) jlFix).msgs.length = 3) ∧
    (run_closed_loop regsBoom jlFix oresBoom1 3 "q").outcome = Except.error "boom failed" ∧
    (run_closed_loop regsBoom jlFix oresBoom1 3 "q").nReq = 1 := by
  exact ⟨rfl, rfl, rfl, rfl, rfl, rfl⟩

/-- C3 (amended): a resolved executor that raises is not captured — the
exception propagates out of the dispatch loop.  The CLI run aborts,
re-raising the executor's exception after this single request; the
bridge emits the pending `tool_call` event and then a single terminal
`error` event with the exception text, records no `tool_result` and no
tool message for the failing call, and issues no further LLM request.
Executor failures are non-fatal only when returned as payloads rather
than raised. -/
theorem c3_executor_raise_amended (cfg : BridgeCfg) (ores : Nat → Except String J)
    (dis : Nat → Bool) (jl : String → Option J) (key : String) (regs : Registry) (ms : Nat)
    (step f : Nat) (messages : List J) (resp call : J) (n : String) (ex : Executor) (e : String)
    (hdis : dis step = false) (hor : ores step = Except.ok resp)
    (htr : truthy (_extract_message resp) = true)
    (htc : _extract_tool_calls (_extract_message resp) = [call])
    (hname : callName call = some (J.str n))
    (hcr : cfg.regs = regs)
    (hex : lookupReg regs n = some ex)
    (harg : ex (callDictArg jl call) = Except.error e) :
    (bridgeLoop cfg ores dis jl key step (f + 1) messages =
      ⟨[Event.requestEv step (reqPreview cfg messages),
        Event.responseEv step (respPayload cfg (_extract_message resp) [call]),
        Event.toolCallEv (jOfOpt (callName call)) (callArgs jl call) (callArgsStr call),
        Event.errorEv e],
        [mkReq cfg key messages], (messages ++ [_extract_message resp]) ++ [],
        [(n, callDictArg jl call)]⟩) ∧
    (cliLoop regs jl ores ms step (f + 1) messages =
      ⟨Except.error e, 1, (messages ++ [_extract_message resp]) ++ [],
        [(n, callDictArg jl call)]⟩) := by
  have hlb : lookupExec cfg.regs (callName call) = some ex := by
    rw [hname, hcr]
    exact hex
  have hlc : lookupExec regs (callName call) = some ex := by
    rw [hname]
    exact hex
  constructor
  · have hd : bridgeDispatch cfg.regs jl step [call] =
        ⟨[Event.toolCallEv (jOfOpt (callName call)) (callArgs jl call) (callArgsStr call)],
          [], [(n, callDictArg jl call)], some e⟩ := by
      simp only [bridgeDispatch, callName, callFn, callArgs, callArgsStr, callDictArg] at hlb harg ⊢
      simp only [hlb]
      simp only [harg]
      simp only [callName, callFn] at hname
      simp [hname]
    simp [bridgeLoop, hdis, hor, htr, htc, hd]
  · have hd : cliDispatch regs jl step 1 [call] =
        ⟨[], [(n, callDictArg jl call)], some e⟩ := by
      simp only [cliDispatch, callName, callFn, callArgs, callArgsStr, callDictArg] at hlc harg ⊢
      simp only [hlc]
      simp only [harg]
      simp only [callName, callFn] at hname
      simp [hname]
    simp [cliLoop, hor, htr, htc, hd]

/-- Witness for the amended C3 at the concrete raising run. -/
theorem c3_executor_raise_amended_witness :
    (bridgeLoop (mkCfg 3 regsBoom) oresBoom1 (fun _ => false) jlFix "K" 1 3 (initMessages "q") =
      ⟨[Event.requestEv 1 (reqPreview (mkCfg 3 regsBoom) (initMessages "q")),
        Event.responseEv 1 (respPayload (mkCfg 3 regsBoom)
          (_extract_message (respMsgCalls [mkCallJ (some "c1") "boom" "\x7b\x7d"]))
          [mkCallJ (some "c1") "boom" "\x7b\x7d"]),
        Event.toolCallEv (J.str "boom") (J.obj []) (J.str "\x7b\x7d"),
        Event.errorEv "boom failed"],
        [mkReq (mkCfg 3 regsBoom) "K" (initMessages "q")],
        (initMessages "q" ++
          [_extract_message (respMsgCalls [mkCallJ (some "c1") "boom" "\x7b\x7d"])]) ++ [],
        [("boom", J.obj [])]⟩) ∧
    (cliLoop regsBoom jlFix oresBoom1 3 1 3 (initMessages "q") =
      ⟨Except.error "boom failed", 1,
        (initMessages "q" ++
          [_extract_message (respMsgCalls [mkCallJ (some "c1") "boom" "\x7b\x7d"])]) ++ [],
        [("boom", J.obj [])]⟩) := by
  have h := c3_executor_raise_amended (mkCfg 3 regsBoom) oresBoom1 (fun _ => false) jlFix "K"
    regsBoom 3 1 2 (initMessages "q") (respMsgCalls [mkCallJ (some "c1") "boom" "\x7b\x7d"])
    (mkCallJ (some "c1") "boom" "\x7b\x7d") "boom" exBoom "boom failed"
    rfl rfl rfl rfl rfl rfl rfl rfl
  exact h

/-- One CLI step with tool calls and a clean dispatch pass: the loop
recurses on the extended transcript, counting one more request. -/
theorem cliLoop_step (regs : Registry) (jl : String → Option J) (ores : Nat → Except String J)
    (ms step fuel : Nat) (messages : List J) (resp : J) (c : J) (cs : List J)
    (hor : ores step = Except.ok resp)
    (htr : truthy (_extract_message resp) = true)
    (hcs : _extract_tool_calls (_extract_message resp) = c :: cs)
    (hr : (cliDispatch regs jl step 1 (c :: cs)).raised = none) :
    cliLoop regs jl ores ms step (fuel + 1) messages =
      ⟨(cliLoop regs jl ores ms (step + 1) fuel
          ((messages ++ [_extract_message resp]) ++ (cliDispatch regs jl step 1 (c :: cs)).msgs)).outcome,
        1 + (cliLoop regs jl ores ms (step + 1) fuel
          ((messages ++ [_extract_message resp]) ++ (cliDispatch regs jl step 1 (c :: cs)).msgs)).nReq,
        (cliLoop regs jl ores ms (step + 1) fuel
          ((messages ++ [_extract_message resp]) ++ (cliDispatch regs jl step 1 (c :: cs)).msgs)).msgs,
        (cliDispatch regs jl step 1 (c :: cs)).invs ++
          (cliLoop regs jl ores ms (step + 1) fuel
            ((messages ++ [_extract_message resp]) ++ (cliDispatch regs jl step 1 (c :: cs)).msgs)).invs⟩ := by
  simp only [cliLoop, hor, htr, hcs, hr]
  simp

/-- One bridge step with tool calls and a clean dispatch pass: the loop
emits the request/response events and the dispatch events, records one
more request, and recurses on the extended transcript. -/
theorem bridgeLoop_step (cfg : BridgeCfg) (ores : Nat → Except String J) (dis : Nat → Bool)
    (jl : String → Option J) (key : String) (step fuel : Nat) (messages : List J) (resp : J)
    (c : J) (cs : List J)
    (hdis : dis step = false)
    (hor : ores step = Except.ok resp)
    (htr : truthy (_extract_message resp) = true)
    (hcs : _extract_tool_calls (_extract_message resp) = c :: cs)
    (hr : (bridgeDispatch cfg.regs jl step (c :: cs)).raised = none) :
    bridgeLoop cfg ores dis jl key step (fuel + 1) messages =
      ⟨Event.requestEv step (reqPreview cfg messages) ::
        Event.responseEv step (respPayload cfg (_extract_message resp) (c :: cs)) ::
        ((bridgeDispatch cfg.regs jl step (c :: cs)).events ++
          (bridgeLoop cfg ores dis jl key (step + 1) fuel
            ((messages ++ [_extract_message resp]) ++
              (bridgeDispatch cfg.regs jl step (c :: cs)).msgs)).events),
        mkReq cfg key messages ::
          (bridgeLoop cfg ores dis jl key (step + 1) fuel
            ((messages ++ [_extract_message resp]) ++
              (bridgeDispatch cfg.regs jl step (c :: cs)).msgs)).reqs,
        (bridgeLoop cfg ores dis jl key (step + 1) fuel
          ((messages ++ [_extract_message resp]) ++
            (bridgeDispatch cfg.regs jl step (c :: cs)).msgs)).msgs,
        (bridgeDispatch cfg.regs jl step (c :: cs)).invs ++
          (bridgeLoop cfg ores dis jl key (step + 1) fuel
            ((messages ++ [_extract_message resp]) ++
              (bridgeDispatch cfg.regs jl step (c :: cs)).msgs)).invs⟩ := by
  simp only [bridgeLoop, hdis, hor, htr, hcs, hr]
  simp

/-- C4: a tool call whose function name resolves to no registered
executor does not abort the run: both loops synthesize a ToolResult
carrying an error text plus the sorted list of known tool names, append
it as the tool message for that call (under the call id), and still
issue a subsequent LLM request.  The name list is sorted and contains
exactly the registered names. -/
theorem c4_unresolved_tool (cfg : BridgeCfg) (ores : Nat → Except String J) (dis : Nat → Bool)
    (jl : String → Option J) (regs : Registry) (ms : Nat) (step f : Nat)
    (messages : List J) (resp call : J) (n : String)
    (hdis : dis step = false) (hdis2 : dis (step + 1) = false)
    (hor : ores step = Except.ok resp)
    (htr : truthy (_extract_message resp) = true)
    (htc : _extract_tool_calls (_extract_message resp) = [call])
    (hname : callName call = some (J.str n))
    (hcr : cfg.regs = regs)
    (hex : lookupReg regs n = none) :
    (cliDispatch regs jl step 1 [call] =
      ⟨[toolMessage (pyOr (call.get "id") (J.str (cliGenId step 1)))
          (notFoundResult regs (callName call))], [], none⟩) ∧
    (bridgeDispatch cfg.regs jl step [call] =
      ⟨[Event.toolCallEv (jOfOpt (callName call)) (callArgs jl call) (callArgsStr call),
        Event.toolResultEv (jOfOpt (callName call)) (notFoundResult cfg.regs (callName call))],
        [toolMessage (pyOr (call.get "id") (J.str (bridgeGenId step)))
          (notFoundResult cfg.regs (callName call))], [], none⟩) ∧
    (notFoundResult regs (callName call) =
      J.obj [("error", J.str ("tool executor not found for: " ++ n)),
        ("available", J.arr ((sortedStrings (regs.map Prod.fst)).map J.str))]) ∧
    List.Pairwise (fun a b => pyStrLe a b = true) (sortedStrings (regs.map Prod.fst)) ∧
    (∀ x, x ∈ sortedStrings (regs.map Prod.fst) ↔ x ∈ regs.map Prod.fst) ∧
    2 ≤ (cliLoop regs jl ores ms step (f + 2) messages).nReq ∧
    2 ≤ (bridgeLoop cfg ores dis jl "K" step (f + 2) messages).reqs.length := by
  have hlc : lookupExec regs (callName call) = none := by
    rw [hname]
    exact hex
  have hlb : lookupExec cfg.regs (callName call) = none := by
    rw [hname, hcr]
    exact hex
  have hdc : cliDispatch regs jl step 1 [call] =
      ⟨[toolMessage (pyOr (call.get "id") (J.str (cliGenId step 1)))
          (notFoundResult regs (callName call))], [], none⟩ := by
    simp only [cliDispatch, callName, callFn] at hlc ⊢
    simp only [hlc]
    simp [cliDispatch, cliGenId, callName, callFn]
  have hdb : bridgeDispatch cfg.regs jl step [call] =
      ⟨[Event.toolCallEv (jOfOpt (callName call)) (callArgs jl call) (callArgsStr call),
        Event.toolResultEv (jOfOpt (callName call)) (notFoundResult cfg.regs (callName call))],
        [toolMessage (pyOr (call.get "id") (J.str (bridgeGenId step)))
          (notFoundResult cfg.regs (callName call))], [], none⟩ := by
    simp only [bridgeDispatch, callName, callFn] at hlb ⊢
    simp only [hlb]
    simp [bridgeDispatch, bridgeGenId, callName, callFn, callArgs, callArgsStr]
  refine ⟨hdc, hdb, ?_, ?_, ?_, ?_, ?_⟩
  · simp [notFoundResult, hname, pyStrOfName]
  · exact sortedStrings_pairwise _
  · intro x
    exact mem_sortedStrings x _
  · rw [cliLoop_step regs jl ores ms step (f + 1) messages resp call [] hor htr htc
      (by rw [hdc])]
    have := cliLoop_nReq_pos regs jl ores ms f (step + 1)
      ((messages ++ [_extract_message resp]) ++ (cliDispatch regs jl step 1 [call]).msgs)
    dsimp only
    omega
  · rw [bridgeLoop_step cfg ores dis jl "K" step (f + 1) messages resp call [] hdis hor htr htc
      (by rw [hdb])]
    have := bridgeLoop_reqs_pos cfg ores dis jl "K" f (step + 1)
      ((messages ++ [_extract_message resp]) ++ (bridgeDispatch cfg.regs jl step [call]).msgs)
      hdis2
    dsimp only
    simp only [List.length_cons]
    omega

/-- Witness for C4: invoking `nonexistent_tool` against the fixture
registry appends the synthesized not-found result and the loops still
issue a second request. -/
theorem c4_unresolved_tool_witness :
    (cliDispatch regsTotal jlFix 1 1 [mkCallJ (some "c1") "nonexistent_tool" "\x7b\x7d"] =
      ⟨[toolMessage (J.str "c1")
          (notFoundResult regsTotal (some (J.str "nonexistent_tool")))], [], none⟩) ∧
    (notFoundResult regsTotal (some (J.str "nonexistent_tool")) =
      J.obj [("error", J.str "tool executor not found for: nonexistent_tool"),
        ("available", J.arr [J.str "echo", J.str "ok"])]) ∧
    2 ≤ (cliLoop regsTotal jlFix oresUnknown 8 1 2 (initMessages "q")).nReq ∧
    2 ≤ (bridgeLoop (mkCfg 8 regsTotal) oresUnknown (fun _ => false) jlFix "K" 1 2
      (initMessages "q")).reqs.length := by
  have h := c4_unresolved_tool (mkCfg 8 regsTotal) oresUnknown (fun _ => false) jlFix regsTotal 8
    1 0 (initMessages "q")
    (respMsgCalls [mkCallJ (some "c1") "nonexistent_tool" "\x7b\x7d"])
    (mkCallJ (some "c1") "nonexistent_tool" "\x7b\x7d") "nonexistent_tool"
    rfl rfl rfl rfl rfl rfl rfl rfl
  refine ⟨h.1, ?_, h.2.2.2.2.2.1, h.2.2.2.2.2.2⟩
  rfl

/-- Counterexample to C5: in the CLI run below the raw argument string
`\x7bnot json` is not valid JSON, yet the tool message appended for that
call carries only the executor's serialized result — it neither contains
the designated key `_raw` nor the raw string; the `_raw` object replaces
the parsed arguments (it is handed to the executor), not the tool
message.  Processing does proceed to a final answer. -/
theorem c5_malformed_args_counterexample :
    (run_closed_loop regsTotal jlFix oresBadArgs 8 "q").outcome = Except.ok "done" ∧
    (run_closed_loop regsTotal jlFix oresBadArgs 8 "q").msgs[3]? =
      some (J.obj [("role", J.str "tool"), ("tool_call_id", J.str "c1"),
        ("content", J.str "\x7b\"ok\": 1\x7d")]) ∧
    strHasSub "\x7b\"ok\": 1\x7d" "_raw" = false ∧
    strHasSub "\x7b\"ok\": 1\x7d" "\x7bnot json" = false ∧
    (run_closed_loop regsTotal jlFix oresBadArgs 8 "q").invs =
      [("ok", J.obj [("_raw", J.str "\x7bnot json")])] := by
  exact ⟨rfl, rfl, rfl, rfl, rfl⟩

/-- C5 (amended): for a tool call whose raw argument string is not valid
JSON, the run does not abort: the raw string is preserved under the
designated key `_raw` in the parsed argument object, which replaces the
parsed arguments — it is handed to the resolved executor and, in the
bridge, emitted in the `tool_call` event — while the appended tool
message carries the executor's serialized result; processing then
proceeds to a subsequent LLM request. -/
theorem c5_malformed_args_amended (cfg : BridgeCfg) (ores : Nat → Except String J)
    (dis : Nat → Bool) (jl : String → Option J) (regs : Registry) (ms : Nat)
    (step f : Nat) (messages : List J) (resp call : J) (n s : String) (ex : Executor) (v : J)
    (hdis : dis step = false) (hdis2 : dis (step + 1) = false)
    (hor : ores step = Except.ok resp)
    (htr : truthy (_extract_message resp) = true)
    (htc : _extract_tool_calls (_extract_message resp) = [call])
    (hargs : (callFn call).get "arguments" = some (J.str s))
    (hs : s.isEmpty = false)
    (hjl : jl s = none)
    (hname : callName call = some (J.str n))
    (hcr : cfg.regs = regs)
    (hex : lookupReg regs n = some ex)
    (hv : ex (J.obj [("_raw", J.str s)]) = Except.ok v) :
    (callArgs jl call = J.obj [("_raw", J.str s)]) ∧
    (cliDispatch regs jl step 1 [call] =
      ⟨[toolMessage (pyOr (call.get "id") (J.str (cliGenId step 1))) v],
        [(n, J.obj [("_raw", J.str s)])], none⟩) ∧
    (bridgeDispatch cfg.regs jl step [call] =
      ⟨[Event.toolCallEv (jOfOpt (callName call)) (J.obj [("_raw", J.str s)]) (J.str s),
        Event.toolResultEv (jOfOpt (callName call)) v],
        [toolMessage (pyOr (call.get "id") (J.str (bridgeGenId step))) v],
        [(n, J.obj [("_raw", J.str s)])], none⟩) ∧
    2 ≤ (cliLoop regs jl ores ms step (f + 2) messages).nReq ∧
    2 ≤ (bridgeLoop cfg ores dis jl "K" step (f + 2) messages).reqs.length := by
  have hstr : callArgsStr call = J.str s := by
    simp only [callArgsStr, hargs, pyOr, truthy, hs]
    rfl
  have hargsv : callArgs jl call = J.obj [("_raw", J.str s)] := by
    simp only [callArgs, hstr, _safe_json_loads, truthy, hs, hjl]
    rfl
  have hlc : lookupExec regs (callName call) = some ex := by
    rw [hname]
    exact hex
  have hlb : lookupExec cfg.regs (callName call) = some ex := by
    rw [hname, hcr]
    exact hex
  have hsjl : _safe_json_loads jl (J.str s) = J.obj [("_raw", J.str s)] := by
    simp only [_safe_json_loads, truthy, hs]
    simp [hjl]
  have hdictarg : callDictArg jl call = J.obj [("_raw", J.str s)] := by
    simp [callDictArg, hargsv, isDict]
  have hdc : cliDispatch regs jl step 1 [call] =
      ⟨[toolMessage (pyOr (call.get "id") (J.str (cliGenId step 1))) v],
        [(n, J.obj [("_raw", J.str s)])], none⟩ := by
    have hexec : ex (callDictArg jl call) = Except.ok v := by
      rw [hdictarg]
      exact hv
    simp only [cliDispatch, callName, callFn, callArgs, callArgsStr, callDictArg]
      at hlc hexec hstr ⊢
    simp only [hstr, hsjl]
    simp only [hstr, hsjl] at hlc hexec
    simp only [hlc]
    simp only [hexec]
    simp only [callName, callFn] at hname
    simp only [cliGenId]
    simp [hname, isDict]
  have hdb : bridgeDispatch cfg.regs jl step [call] =
      ⟨[Event.toolCallEv (jOfOpt (callName call)) (J.obj [("_raw", J.str s)]) (J.str s),
        Event.toolResultEv (jOfOpt (callName call)) v],
        [toolMessage (pyOr (call.get "id") (J.str (bridgeGenId step))) v],
        [(n, J.obj [("_raw", J.str s)])], none⟩ := by
    have hexec : ex (callDictArg jl call) = Except.ok v := by
      rw [hdictarg]
      exact hv
    simp only [bridgeDispatch, callName, callFn, callArgs, callArgsStr, callDictArg]
      at hlb hexec hstr ⊢
    simp only [hstr, hsjl]
    simp only [hstr, hsjl] at hlb hexec
    simp only [hlb]
    simp only [hexec]
    simp only [callName, callFn] at hname
    simp only [bridgeGenId]
    simp [hname, isDict]
  refine ⟨hargsv, hdc, hdb, ?_, ?_⟩
  · rw [cliLoop_step regs jl ores ms step (f + 1) messages resp call [] hor htr htc
      (by rw [hdc])]
    have := cliLoop_nReq_pos regs jl ores ms f (step + 1)
      ((messages ++ [_extract_message resp]) ++ (cliDispatch regs jl step 1 [call]).msgs)
    dsimp only
    omega
  · rw [bridgeLoop_step cfg ores dis jl "K" step (f + 1) messages resp call [] hdis hor htr htc
      (by rw [hdb])]
    have := bridgeLoop_reqs_pos cfg ores dis jl "K" f (step + 1)
      ((messages ++ [_extract_message resp]) ++ (bridgeDispatch cfg.regs jl step [call]).msgs)
      hdis2
    dsimp only
    simp only [List.length_cons]
    omega

/-- Witness for the amended C5 at the concrete malformed-argument run. -/
theorem c5_malformed_args_amended_witness :
    (callArgs jlFix (mkCallJ (some "c1") "ok" "\x7bnot json") =
      J.obj [("_raw", J.str "\x7bnot json")]) ∧
    (cliDispatch regsTotal jlFix 1 1 [mkCallJ (some "c1") "ok" "\x7bnot json"] =
      ⟨[toolMessage (J.str "c1") (J.obj [("ok", J.num 1)])],
        [("ok", J.obj [("_raw", J.str "\x7bnot json")])], none⟩) ∧
    2 ≤ (cliLoop regsTotal jlFix oresBadArgs 8 1 2 (initMessages "q")).nReq := by
  have h := c5_malformed_args_amended (mkCfg 8 regsTotal) oresBadArgs (fun _ => false) jlFix
    regsTotal 8 1 0 (initMessages "q")
    (respMsgCalls [mkCallJ (some "c1") "ok" "\x7bnot json"])
    (mkCallJ (some "c1") "ok" "\x7bnot json") "ok" "\x7bnot json" exConst
    (J.obj [("ok", J.num 1)])
    rfl rfl rfl rfl rfl rfl rfl rfl rfl rfl rfl rfl
  exact ⟨h.1, h.2.1, h.2.2.2.1⟩

/-- Counterexample to C6: in the bridge run below, step 1 carries two
tool calls whose ids the model omitted; both generated ids are
`call_1`, so the two tool messages of the same run share one id — the
generated ids are not unique within the run. -/
theorem c6_generated_ids_counterexample :
    (_chat_sse (mkCfg 8 regsTotal) oresTwoNoId (fun _ => false) jlFix).msgs[3]? =
      some (toolMessage (J.str "call_1") (J.obj [("ok", J.num 1)])) ∧
    (_chat_sse (mkCfg 8 regsTotal) oresTwoNoId (fun _ => false) jlFix).msgs[4]? =
      some (toolMessage (J.str "call_1") (J.obj [("echo", J.obj [])])) ∧
    (_chat_sse (mkCfg 8 regsTotal) oresTwoNoId (fun _ => false) jlFix).msgs.length = 5 := by
  exact ⟨rfl, rfl, rfl⟩

/-- C6 (amended): only the CLI generates ids scoped to both the step and
the call's position (`call_{step}_{idx}`), and those are injective, hence
unique within a run.  The bridge generates `call_{step}` for every
id-less call of a step — injective across steps, but shared by all
id-less calls within one step. -/
theorem c6_generated_ids_amended :
    (∀ s i s' i', cliGenId s i = cliGenId s' i' → s = s' ∧ i = i') ∧
    (∀ s s', bridgeGenId s = bridgeGenId s' → s = s') ∧
    (∀ (regs : Registry) (jl : String → Option J) (step idx : Nat) (call : J) (rest : List J),
      call.get "id" = none → lookupExec regs (callName call) = none →
      (cliDispatch regs jl step idx (call :: rest)).msgs.head? =
        some (toolMessage (J.str (cliGenId step idx)) (notFoundResult regs (callName call)))) ∧
    (∀ (regs : Registry) (jl : String → Option J) (step : Nat) (call : J) (rest : List J),
      call.get "id" = none → lookupExec regs (callName call) = none →
      (bridgeDispatch regs jl step (call :: rest)).msgs.head? =
        some (toolMessage (J.str (bridgeGenId step)) (notFoundResult regs (callName call)))) := by
  refine ⟨fun s i s' i' h => cliGenId_inj h, fun s s' h => bridgeGenId_inj h, ?_, ?_⟩
  · intro regs jl step idx call rest hid hlk
    simp only [cliDispatch, callName, callFn] at hlk ⊢
    simp only [hlk]
    simp [hid, pyOr, cliGenId]
  · intro regs jl step call rest hid hlk
    simp only [bridgeDispatch, callName, callFn] at hlk ⊢
    simp only [hlk]
    simp [hid, pyOr, bridgeGenId]

/-- Witness for the amended C6: concrete generated ids and the id-less
dispatch behaviour at step 5, position 2. -/
theorem c6_generated_ids_amended_witness :
    cliGenId 12 3 = "call_12_3" ∧ bridgeGenId 12 = "call_12" ∧
    (cliDispatch [] jlFix 5 2 [mkCallJ none "zzz" "\x7b\x7d"]).msgs.head? =
      some (toolMessage (J.str "call_5_2") (notFoundResult [] (some (J.str "zzz")))) ∧
    (bridgeDispatch [] jlFix 5 [mkCallJ none "zzz" "\x7b\x7d"]).msgs.head? =
      some (toolMessage (J.str "call_5") (notFoundResult [] (some (J.str "zzz")))) := by
  refine ⟨rfl, rfl, ?_, ?_⟩
  · exact c6_generated_ids_amended.2.2.1 [] jlFix 5 2 (mkCallJ none "zzz" "\x7b\x7d") [] rfl rfl
  · exact c6_generated_ids_amended.2.2.2 [] jlFix 5 (mkCallJ none "zzz" "\x7b\x7d") [] rfl rfl

/-- When the cancellation signal is never observed, the full `_chat_sse`
event stream is a clean prefix followed by exactly one terminal event. -/
theorem chatSSE_nodis (cfg : BridgeCfg) (ores : Nat → Except String J) (dis : Nat → Bool)
    (jl : String → Option J) (hd : ∀ k, dis k = false) :
    ∃ front t, (_chat_sse cfg ores dis jl).events = front ++ [t] ∧ isTerminal t = true ∧
      ∀ e ∈ front, isTerminal e = false := by
  by_cases hq : pyStrip cfg.query = ""
  · exact ⟨[], .errorEv missingQueryMsg, by simp [_chat_sse, hq], rfl, by simp⟩
  · rcases hak : cfg.api_key with _ | key
    · exact ⟨[], .errorEv missingKeyMsg, by simp [_chat_sse, hq, hak], rfl, by simp⟩
    · by_cases hke : key = ""
      · exact ⟨[], .errorEv missingKeyMsg, by simp [_chat_sse, hq, hak, hke], rfl, by simp⟩
      · by_cases htl : cfg.tools.isEmpty = true
        · refine ⟨[Event.metaEv cfg.server_url cfg.base_url cfg.model cfg.max_steps,
            Event.statusEv statusText,
            Event.toolsEv cfg.tools.length (if cfg.verbose then J.arr cfg.tools else J.null)],
            .errorEv noToolsMsg, by simp [_chat_sse, hq, hak, hke, htl], rfl, ?_⟩
          intro e he
          simp only [List.mem_cons, List.not_mem_nil, or_false] at he
          rcases he with he | he | he <;> simp [he, isTerminal]
        · simp only [Bool.not_eq_true] at htl
          obtain ⟨front, t, heq, hterm, hfront⟩ :=
            bridgeLoop_nodis cfg ores dis jl key hd cfg.max_steps 1
              (initMessages (pyStrip cfg.query))
          refine ⟨Event.metaEv cfg.server_url cfg.base_url cfg.model cfg.max_steps ::
            Event.statusEv statusText ::
            Event.toolsEv cfg.tools.length (if cfg.verbose then J.arr cfg.tools else J.null) ::
            front, t, ?_, hterm, ?_⟩
          · simp only [_chat_sse, hq, hak, hke, htl]
            simp only [if_neg hq, Bool.false_eq_true, if_false]
            rw [heq]
            simp
          · intro e he
            simp only [List.mem_cons] at he
            rcases he with he | he | he | he
            · simp [he, isTerminal]
            · simp [he, isTerminal]
            · simp [he, isTerminal]
            · exact hfront e he

/-- Counterexample to C7: the bridge run below is stopped by a
cancellation signal observed at the step-2 boundary (after a complete
tool-call step 1); its event stream contains zero terminal events —
there is no `cancelled` event kind in the source and no `final` or
`error` is emitted — not exactly one as claimed. -/
theorem c7_terminal_event_counterexample :
    ((_chat_sse (mkCfg 8 regsTotal) oresCalls2 disAt2 jlFix).events.filter isTerminal).length
      = 0 ∧
    (_chat_sse (mkCfg 8 regsTotal) oresCalls2 disAt2 jlFix).events.length = 7 := by
  exact ⟨rfl, rfl⟩

/-- C7 (amended): every `_chat_sse` run emits at most one terminal event
(final or error), and no event follows a terminal one; when the
cancellation signal is never observed the run emits exactly one terminal
event, in final position.  A run stopped by an observed cancellation
simply stops: it may end with no terminal event at all, and no
`cancelled` event kind exists. -/
theorem c7_terminal_events_amended (cfg : BridgeCfg) (ores : Nat → Except String J)
    (dis : Nat → Bool) (jl : String → Option J) :
    ((_chat_sse cfg ores dis jl).events.filter isTerminal).length ≤ 1 ∧
    (∀ e ∈ (_chat_sse cfg ores dis jl).events.dropLast, isTerminal e = false) ∧
    ((∀ k, dis k = false) →
      ((_chat_sse cfg ores dis jl).events.filter isTerminal).length = 1 ∧
      ∃ t, (_chat_sse cfg ores dis jl).events.getLast? = some t ∧ isTerminal t = true) := by
  refine ⟨shape_count_le _ isTerminal (fun _ h => h) (chatSSE_shape cfg ores dis jl), ?_, ?_⟩
  · intro e he
    rcases chatSSE_shape cfg ores dis jl with hall | ⟨front, t, heq, hterm, hfront⟩
    · exact hall e ((List.dropLast_sublist _).subset he)
    · rw [heq, List.dropLast_concat] at he
      exact hfront e he
  · intro hd
    obtain ⟨front, t, heq, hterm, hfront⟩ := chatSSE_nodis cfg ores dis jl hd
    have hfe : front.filter isTerminal = [] := by
      rw [List.filter_eq_nil_iff]
      intro a ha hpa
      rw [hfront a ha] at hpa
      cases hpa
    constructor
    · rw [heq, List.filter_append, hfe, List.nil_append]
      simp [List.filter, hterm]
    · exact ⟨t, by rw [heq]; exact List.getLast?_concat _, hterm⟩

/-- Witness for the amended C7: the uncancelled fixture run emits
exactly one terminal event. -/
theorem c7_terminal_events_amended_witness :
    ((_chat_sse (mkCfg 8 regsTotal) oresFinal1 (fun _ => false) jlFix).events.filter
      isTerminal).length = 1 := by
  exact ((c7_terminal_events_amended (mkCfg 8 regsTotal) oresFinal1 (fun _ => false)
    jlFix).2.2 (fun _ => rfl)).1

/-- The bridge step loop never reads the configuration's stored
credential field: its whole result is unchanged when that field
differs. -/
theorem bridgeLoop_api_key_irrel (q su : String) (ms : Nat) (v : Bool)
    (ak1 ak2 : Option String) (bu m : String) (t : List J) (r : Registry)
    (ores : Nat → Except String J) (dis : Nat → Bool) (jl : String → Option J) (key : String) :
    ∀ fuel step messages,
      bridgeLoop ⟨q, su, ms, v, ak1, bu, m, t, r⟩ ores dis jl key step fuel messages =
        bridgeLoop ⟨q, su, ms, v, ak2, bu, m, t, r⟩ ores dis jl key step fuel messages := by
  intro fuel
  induction fuel with
  | zero => intro step messages; rfl
  | succ f ih =>
    intro step messages
    simp only [bridgeLoop]
    by_cases hdis : dis step = true
    · simp [hdis]
    · simp only [Bool.not_eq_true] at hdis
      rcases hor : ores step with e | resp
      · simp only [hdis, hor]
        rfl
      · cases htr : truthy (_extract_message resp) with
        | false =>
          simp only [hdis, hor, htr]
          rfl
        | true =>
          rcases htc : _extract_tool_calls (_extract_message resp) with _ | ⟨c, cs⟩
          · simp only [hdis, hor, htr, htc]
            rfl
          · rcases hr : (bridgeDispatch r jl step (c :: cs)).raised with _ | e
            · simp only [hdis, hor, htr, htc, hr]
              simp only [Bool.true_eq_false, Bool.false_eq_true, if_false]
              rw [ih]
              rfl
            · simp only [hdis, hor, htr, htc, hr]
              rfl

/-- C8: the DeepSeek API key never reaches any emitted event payload —
two runs differing only in the configured key produce identical event
streams — and the key is placed exactly in the `Authorization` header
(`Bearer` scheme) of every outgoing chat-completion request. -/
theorem c8_key_confined (q su : String) (ms : Nat) (v : Bool) (bu m : String) (t : List J)
    (r : Registry) (k1 k2 : String) (ores : Nat → Except String J) (dis : Nat → Bool)
    (jl : String → Option J) (h1 : k1 ≠ "") (h2 : k2 ≠ "") :
    ((_chat_sse ⟨q, su, ms, v, some k1, bu, m, t, r⟩ ores dis jl).events =
      (_chat_sse ⟨q, su, ms, v, some k2, bu, m, t, r⟩ ores dis jl).events) ∧
    (∀ (cfg : BridgeCfg) (key : String), cfg.api_key = some key →
      ∀ rq ∈ (_chat_sse cfg ores dis jl).reqs, rq.authorization = "Bearer " ++ key) := by
  constructor
  · by_cases hq : pyStrip q = ""
    · simp [_chat_sse, hq]
    · by_cases htl : t.isEmpty = true
      · simp [_chat_sse, hq, h1, h2, htl]
      · simp only [Bool.not_eq_true] at htl
        simp only [_chat_sse]
        simp only [if_neg hq, if_neg h1, if_neg h2, htl, Bool.false_eq_true, if_false]
        rw [bridgeLoop_api_key_irrel q su ms v (some k1) (some k2) bu m t r ores dis jl k1]
        rw [(bridgeLoop_key_indep ⟨q, su, ms, v, some k2, bu, m, t, r⟩ ores dis jl k1 k2
          ms 1 (initMessages (pyStrip q))).1]
  · intro cfg key hak rq hrq
    by_cases hq : pyStrip cfg.query = ""
    · simp [_chat_sse, hq] at hrq
    · by_cases hke : key = ""
      · simp [_chat_sse, hq, hak, hke] at hrq
      · by_cases htl : cfg.tools.isEmpty = true
        · simp [_chat_sse, hq, hak, hke, htl] at hrq
        · simp only [Bool.not_eq_true] at htl
          simp only [_chat_sse, hak] at hrq
          simp only [if_neg hq, if_neg hke, htl, Bool.false_eq_true, if_false] at hrq
          exact bridgeLoop_auth cfg ores dis jl key cfg.max_steps 1
            (initMessages (pyStrip cfg.query)) rq hrq

/-- Witness for C8 at the concrete fixture run: swapping the key leaves
the event stream untouched, and the one issued request carries
`Bearer K`. -/
theorem c8_key_confined_witness :
    ((_chat_sse ⟨"q", "u", 8, false, some "K1", "b", "m", [J.str "schema"], regsTotal⟩
        oresFinal1 (fun _ => false) jlFix).events =
      (_chat_sse ⟨"q", "u", 8, false, some "K2", "b", "m", [J.str "schema"], regsTotal⟩
        oresFinal1 (fun _ => false) jlFix).events) ∧
    (∀ rq ∈ (_chat_sse (mkCfg 8 regsTotal) oresFinal1 (fun _ => false) jlFix).reqs,
      rq.authorization = "Bearer " ++ "K") := by
  have h := c8_key_confined "q" "u" 8 false "b" "m" [J.str "schema"] regsTotal "K1" "K2"
    oresFinal1 (fun _ => false) jlFix (by decide) (by decide)
  exact ⟨h.1, fun rq hrq => h.2 (mkCfg 8 regsTotal) "K" rfl rq hrq⟩

/-- Every executor invocation of a whole CLI loop run receives a dict. -/
theorem cliLoop_invs_dict (regs : Registry) (jl : String → Option J)
    (ores : Nat → Except String J) (ms : Nat) :
    ∀ fuel step messages p, p ∈ (cliLoop regs jl ores ms step fuel messages).invs →
      isDict p.2 = true := by
  intro fuel
  induction fuel with
  | zero =>
    intro step messages p h
    simp [cliLoop] at h
  | succ f ih =>
    intro step messages p h
    rcases hor : ores step with e | resp
    · simp [cliLoop, hor] at h
    · cases htr : truthy (_extract_message resp) with
      | false => simp [cliLoop, hor, htr] at h
      | true =>
        rcases htc : _extract_tool_calls (_extract_message resp) with _ | ⟨c, cs⟩
        · simp [cliLoop, hor, htr, htc] at h
        · rcases hr : (cliDispatch regs jl step 1 (c :: cs)).raised with _ | e
          · simp only [cliLoop, hor, htr, htc, hr] at h
            simp only [Bool.true_eq_false, Bool.false_eq_true, if_false, List.mem_append] at h
            rcases h with h | h
            · exact cliDispatch_invs_dict regs jl step (c :: cs) 1 p h
            · exact ih (step + 1) _ p h
          · simp only [cliLoop, hor, htr, htc, hr] at h
            simp only [Bool.true_eq_false, Bool.false_eq_true, if_false] at h
            exact cliDispatch_invs_dict regs jl step (c :: cs) 1 p h

/-- Every executor invocation of a whole bridge loop run receives a
dict. -/
theorem bridgeLoop_invs_dict (cfg : BridgeCfg) (ores : Nat → Except String J) (dis : Nat → Bool)
    (jl : String → Option J) (key : String) :
    ∀ fuel step messages p, p ∈ (bridgeLoop cfg ores dis jl key step fuel messages).invs →
      isDict p.2 = true := by
  intro fuel
  induction fuel with
  | zero =>
    intro step messages p h
    simp [bridgeLoop] at h
  | succ f ih =>
    intro step messages p h
    by_cases hdis : dis step = true
    · simp [bridgeLoop, hdis] at h
    · simp only [Bool.not_eq_true] at hdis
      rcases hor : ores step with e | resp
      · simp [bridgeLoop, hdis, hor] at h
      · cases htr : truthy (_extract_message resp) with
        | false => simp [bridgeLoop, hdis, hor, htr] at h
        | true =>
          rcases htc : _extract_tool_calls (_extract_message resp) with _ | ⟨c, cs⟩
          · simp [bridgeLoop, hdis, hor, htr, htc] at h
          · rcases hr : (bridgeDispatch cfg.regs jl step (c :: cs)).raised with _ | e
            · simp only [bridgeLoop, hdis, hor, htr, htc, hr] at h
              simp only [Bool.true_eq_false, Bool.false_eq_true, if_false, List.mem_append] at h
              rcases h with h | h
              · exact bridgeDispatch_invs_dict cfg.regs jl step (c :: cs) p h
              · exact ih (step + 1) _ p h
            · simp only [bridgeLoop, hdis, hor, htr, htc, hr] at h
              simp only [Bool.true_eq_false, Bool.false_eq_true, if_false] at h
              exact bridgeDispatch_invs_dict cfg.regs jl step (c :: cs) p h

/-- C9: in both closed loops every registered executor is invoked with a
dict argument object — whenever the parsed arguments are not a dict, the
executor receives the empty dict instead. -/
theorem c9_executor_arg_dict :
    (∀ (regs : Registry) (jl : String → Option J) (ores : Nat → Except String J) (ms : Nat)
      (q : String) (p : String × J), p ∈ (run_closed_loop regs jl ores ms q).invs →
      isDict p.2 = true) ∧
    (∀ (cfg : BridgeCfg) (ores : Nat → Except String J) (dis : Nat → Bool)
      (jl : String → Option J) (p : String × J), p ∈ (_chat_sse cfg ores dis jl).invs →
      isDict p.2 = true) ∧
    (∀ (regs : Registry) (jl : String → Option J) (step idx : Nat) (call : J) (rest : List J)
      (n : String) (ex : Executor),
      callName call = some (J.str n) → lookupReg regs n = some ex →
      isDict (callArgs jl call) = false →
      (cliDispatch regs jl step idx (call :: rest)).invs.head? = some (n, J.obj [])) ∧
    (∀ (regs : Registry) (jl : String → Option J) (step : Nat) (call : J) (rest : List J)
      (n : String) (ex : Executor),
      callName call = some (J.str n) → lookupReg regs n = some ex →
      isDict (callArgs jl call) = false →
      (bridgeDispatch regs jl step (call :: rest)).invs.head? = some (n, J.obj [])) := by
  refine ⟨?_, ?_, ?_, ?_⟩
  · intro regs jl ores ms q p h
    exact cliLoop_invs_dict regs jl ores ms ms 1 (initMessages q) p h
  · intro cfg ores dis jl p h
    by_cases hq : pyStrip cfg.query = ""
    · simp [_chat_sse, hq] at h
    · rcases hak : cfg.api_key with _ | key
      · simp [_chat_sse, hq, hak] at h
      · by_cases hke : key = ""
        · simp [_chat_sse, hq, hak, hke] at h
        · by_cases htl : cfg.tools.isEmpty = true
          · simp [_chat_sse, hq, hak, hke, htl] at h
          · simp only [Bool.not_eq_true] at htl
            simp only [_chat_sse, hak] at h
            simp only [if_neg hq, if_neg hke, htl, Bool.false_eq_true, if_false] at h
            exact bridgeLoop_invs_dict cfg ores dis jl key cfg.max_steps 1
              (initMessages (pyStrip cfg.query)) p h
  · intro regs jl step idx call rest n ex hname hex hnd
    have hlc : lookupExec regs (callName call) = some ex := by
      rw [hname]
      exact hex
    simp only [cliDispatch, callName, callFn, callArgs, callArgsStr] at hlc hnd ⊢
    simp only [hlc]
    simp only [hnd, Bool.false_eq_true, if_false]
    simp only [callName, callFn] at hname
    rcases hx : ex (J.obj []) with e | v
    · simp [hx, hname]
    · simp [hx, hname]
  · intro regs jl step call rest n ex hname hex hnd
    have hlc : lookupExec regs (callName call) = some ex := by
      rw [hname]
      exact hex
    simp only [bridgeDispatch, callName, callFn, callArgs, callArgsStr] at hlc hnd ⊢
    simp only [hlc]
    simp only [hnd, Bool.false_eq_true, if_false]
    simp only [callName, callFn] at hname
    rcases hx : ex (J.obj []) with e | v
    · simp [hx, hname]
    · simp [hx, hname]

/-- Witness for C9: the arguments `[1, 2]` parse to a non-dict, so the
executor receives the empty dict; and a whole-run invocation record is a
dict. -/
theorem c9_executor_arg_dict_witness :
    ((cliDispatch regsTotal jlFix 1 1 [mkCallJ (some "c1") "ok" "[1, 2]"]).invs.head? =
      some ("ok", J.obj [])) ∧
    isDict (J.obj [("_raw", J.str "\x7bnot json")]) = true := by
  constructor
  · exact c9_executor_arg_dict.2.2.1 regsTotal jlFix 1 1
      (mkCallJ (some "c1") "ok" "[1, 2]") [] "ok" exConst rfl rfl rfl
  · exact c9_executor_arg_dict.1 regsTotal jlFix oresBadArgs 8 "q"
      ("ok", J.obj [("_raw", J.str "\x7bnot json")]) (List.mem_singleton.mpr rfl)

/-- Counterexample to C10: at `keep_last = 0` the Python slice `s[-0:]`
is the whole string, so redacting the nonempty input `ab` returns
`**ab` — twice the input's length and revealing every character of it —
falsifying both the same-length promise and the at-most-`keep_last`
disclosure promise of the claim. -/
theorem c10_redact_counterexample :
    _redact "ab".data 0 = "**ab".data ∧
    ("**ab".data).length ≠ ("ab".data).length := by
  exact ⟨rfl, by decide⟩

/-- C10 (amended): for every `keep_last ≥ 1` — in particular the default
4 — `_redact` returns a string of the same length as its input revealing
at most the last `keep_last` characters: the empty string maps to the
empty string, a string no longer than `keep_last` becomes all asterisks,
and a longer string becomes its last `keep_last` characters preceded
only by asterisks.  At `keep_last = 0`, however, the slice `s[-0:]` is
the whole string, so a nonempty input yields its full length in
asterisks followed by the entire input. -/
theorem c10_redact (s : List Char) (keep : Nat) :
    (1 ≤ keep → (_redact s keep).length = s.length) ∧
    (s = [] → _redact s keep = []) ∧
    (s ≠ [] → s.length ≤ keep → _redact s keep = List.replicate s.length '*') ∧
    (1 ≤ keep → keep < s.length → _redact s keep =
      List.replicate (s.length - keep) '*' ++ s.drop (s.length - keep)) ∧
    (keep = 0 → s ≠ [] → _redact s keep = List.replicate s.length '*' ++ s) := by
  refine ⟨?_, ?_, ?_, ?_, ?_⟩
  · intro hk
    by_cases h1 : s = []
    · simp [_redact, h1]
    · by_cases h2 : s.length ≤ keep
      · simp [_redact, h1, h2]
      · have hk0 : keep ≠ 0 := by omega
        simp only [_redact, pySliceLast, h1, h2, hk0, if_false, ite_false]
        simp only [List.length_append, List.length_replicate, List.length_drop]
        omega
  · intro h
    simp [_redact, h]
  · intro h1 h2
    simp [_redact, h1, h2]
  · intro hk h
    have h1 : s ≠ [] := by
      intro he
      subst he
      simp at h
    have h2 : ¬ s.length ≤ keep := by omega
    have hk0 : keep ≠ 0 := by omega
    simp [_redact, pySliceLast, h1, h2, hk0]
  · intro hk h1
    subst hk
    have h2 : ¬ s.length ≤ 0 := by
      have := List.length_pos.mpr h1
      omega
    simp [_redact, pySliceLast, h1, h2]

/-- Witness for the amended C10: redacting a 9-character secret with the
default `keep_last = 4` keeps the length and masks all but the last four
characters, while `keep_last = 0` degenerates to the full input after
the asterisks. -/
theorem c10_redact_witness :
    _redact "secretkey".data 4 = "*****tkey".data ∧
    (_redact "secretkey".data 4).length = ("secretkey".data).length ∧
    _redact "ab".data 0 = List.replicate 2 '*' ++ "ab".data := by
  refine ⟨?_, ?_, ?_⟩
  · have h := (c10_redact "secretkey".data 4).2.2.2.1 (by decide) (by decide)
    rw [h]
    decide
  · exact (c10_redact "secretkey".data 4).1 (by decide)
  · exact (c10_redact "ab".data 0).2.2.2.2 rfl (by decide)
